import Mathlib

/-!
Shallow embedding of the appstart runtime-contract validator and container
sandbox, translated from:

  * appstart/validator/contract.py   (severity levels, lifecycle timeline,
    ContractTestResult, ContractValidator dependency resolution / DFS,
    the dependency-and-tag wrapper),
  * appstart/validator/errors.py     (CircularDependencyError is the only
    custom error class used by the resolver; the singular-point check
    raises the builtin ValueError),
  * appstart/sandbox/container.py    (Container.create / kill / remove and
    the SIGINT flag protocol),
  * appstart/sandbox/container_sandbox.py (ContainerSandbox.start / stop /
    create_and_run_containers / wait_for_start).

Machine integers do not occur; all counters are Nat.  Python sets of
classes are modelled as lists of clause names with membership tests;
iteration order of such sets, which CPython leaves unspecified, becomes
the list order, and theorems quantify over orders where it matters.
-/

namespace Appstart

/-! ### Severity levels and lifecycle timeline, contract.py lines 86-116 -/

/-- Severity FATAL, contract.py line 86. -/
def FATAL : Nat := 30

/-- Severity WARNING, contract.py line 87. -/
def WARNING : Nat := 20

/-- Severity UNUSED, contract.py line 88. -/
def UNUSED : Nat := 10

/-- Lifecycle point POST_STOP, contract.py line 97. -/
def POST_STOP : Nat := 50

/-- Lifecycle point STOP, contract.py line 98. -/
def STOP : Nat := 40

/-- Lifecycle point POST_START, contract.py line 99. -/
def POST_START : Nat := 30

/-- Lifecycle point START, contract.py line 100. -/
def START : Nat := 20

/-- Lifecycle point PRE_START, contract.py line 101. -/
def PRE_START : Nat := 10

/-- The ordered timeline of lifecycle points, contract.py `_TIMELINE`. -/
def TIMELINE : List Nat := [PRE_START, START, POST_START, STOP, POST_STOP]

/-- Lifecycle points that admit at most one clause, contract.py `_SINGULAR_POINTS`. -/
def SINGULAR_POINTS : List Nat := [START, STOP]

/-! ### Outcome model for ContractTestResult (contract.py lines 151-357)

A `RunClause` is a clause as seen at run time: its identity (class name),
severity, tags, dependency names, and the behaviour its `evaluate_clause`
body would have if it were actually invoked (`raw`).  The wrapper installed
by `ContractValidator._dependency_and_tag_wrapper` may turn this into a
SKIP before the body runs. -/

/-- The four outcomes a clause can be recorded with (class constants of
ContractTestResult: PASS, SKIP, FAIL, ERROR). -/
inductive Outcome where
  | pass
  | skip
  | fail
  | error
deriving DecidableEq, Repr

/-- Behaviour of the underlying `evaluate_clause` body when it is invoked:
it returns (PASS), raises an assertion (FAIL), or raises any other
exception (ERROR). -/
inductive RawOutcome where
  | pass
  | fail
  | error
deriving DecidableEq, Repr

/-- A clause at run time. -/
structure RunClause where
  name : String
  error_level : Nat
  tags : List String
  dependencies : List String
  raw : RawOutcome
deriving DecidableEq, Repr

/-- Increment the count for a severity level in the `error_stats`
dictionary (`self.error_stats.setdefault(lvl, 0); self.error_stats[lvl] += 1`). -/
def bumpStat : List (Nat × Nat) → Nat → List (Nat × Nat)
  | [], lvl => [(lvl, 1)]
  | (l, k) :: rest, lvl =>
      if l = lvl then (l, k + 1) :: rest else (l, k) :: bumpStat rest lvl

/-- The mutable fields of a ContractTestResult (one per lifecycle phase):
the overall `success` flag, the per-level `error_stats`, and the recorded
outcome lists. -/
structure TestResultState where
  success : Bool
  error_stats : List (Nat × Nat)
  success_list : List String
  skipped : List String
  failures : List String
  errors : List String
deriving DecidableEq, Repr

/-- A fresh ContractTestResult: `self.success = True`, empty stats. -/
def initResult : TestResultState :=
  { success := true, error_stats := [], success_list := [], skipped := [],
    failures := [], errors := [] }

/-- `ContractTestResult.__update_error_stats`: bump the level count and
clear `success` when the failing clause's level reaches the threshold
(contract.py lines 208-221). -/
def update_error_stats (threshold : Nat) (st : TestResultState) (c : RunClause) :
    TestResultState :=
  { st with
    error_stats := bumpStat st.error_stats c.error_level,
    success := if threshold ≤ c.error_level then false else st.success }

/-- `ContractTestResult.addSuccess`: record the pass and add the clause
class to the validator's success set (contract.py lines 192-206). -/
def addSuccess (st : TestResultState) (sset : List String) (c : RunClause) :
    TestResultState × List String :=
  ({ st with success_list := st.success_list ++ [c.name] }, sset ++ [c.name])

/-- `ContractTestResult.addSkip`: record the skip; neither `success` nor
`error_stats` is touched (contract.py lines 223-226). -/
def addSkip (st : TestResultState) (c : RunClause) : TestResultState :=
  { st with skipped := st.skipped ++ [c.name] }

/-- `ContractTestResult.addError` (contract.py lines 228-241). -/
def addError (threshold : Nat) (st : TestResultState) (c : RunClause) :
    TestResultState :=
  let st1 := update_error_stats threshold st c
  { st1 with errors := st1.errors ++ [c.name] }

/-- `ContractTestResult.addFailure` (contract.py lines 243-259). -/
def addFailure (threshold : Nat) (st : TestResultState) (c : RunClause) :
    TestResultState :=
  let st1 := update_error_stats threshold st c
  { st1 with failures := st1.failures ++ [c.name] }

/-- The wrapper from `ContractValidator._dependency_and_tag_wrapper`
(contract.py lines 984-1020): skip when some dependency class is not in
the success set; otherwise, when a tag filter is active, skip unless some
tag of the clause appears in the filter; otherwise run the body. -/
def outcomeOf (tags_filter : List String) (sset : List String) (c : RunClause) :
    Outcome :=
  if c.dependencies.any (fun d => d ∉ sset) then .skip
  else if tags_filter ≠ [] ∧ c.tags.all (fun t => t ∉ tags_filter) then .skip
  else
    match c.raw with
    | .pass => .pass
    | .fail => .fail
    | .error => .error

/-- Run one clause through the result collector: dispatch its outcome to
the corresponding ContractTestResult method. -/
def runClause (threshold : Nat) (tags_filter : List String) (c : RunClause)
    (st : TestResultState) (sset : List String) : TestResultState × List String :=
  match outcomeOf tags_filter sset c with
  | .pass => addSuccess st sset c
  | .skip => (addSkip st c, sset)
  | .fail => (addFailure threshold st c, sset)
  | .error => (addError threshold st c, sset)

/-- Run a suite of clauses (one lifecycle phase) through one
ContractTestResult, threading the validator's success set. -/
def runSuite (threshold : Nat) (tags_filter : List String) :
    List RunClause → TestResultState → List String → TestResultState × List String
  | [], st, sset => (st, sset)
  | c :: rest, st, sset =>
      let (st1, sset1) := runClause threshold tags_filter c st sset
      runSuite threshold tags_filter rest st1 sset1

/-- `ContractValidator.validate` (contract.py lines 1051-1096): run the
suites phase by phase, each with a fresh ContractTestResult, and fold
`validation_passed = validation_passed and res.success`. -/
def validateRun (threshold : Nat) (tags_filter : List String) :
    List (List RunClause) → Bool → List String → Bool × List String
  | [], passed, sset => (passed, sset)
  | suite :: rest, passed, sset =>
      let (res, sset1) := runSuite threshold tags_filter suite initResult sset
      validateRun threshold tags_filter rest (passed && res.success) sset1

/-- The outcome trace of a suite: the clauses paired with the outcome each
one is recorded with, together with the final success set.  The success
set grows exactly at PASS outcomes (`addSuccess`). -/
def traceSuite (tags_filter : List String) :
    List RunClause → List String → List (RunClause × Outcome) × List String
  | [], sset => ([], sset)
  | c :: rest, sset =>
      let o := outcomeOf tags_filter sset c
      let sset1 := if o = .pass then sset ++ [c.name] else sset
      let (tr, sset2) := traceSuite tags_filter rest sset1
      ((c, o) :: tr, sset2)

/-- The per-phase outcome traces of a whole validation run. -/
def tracePhases (tags_filter : List String) :
    List (List RunClause) → List String →
    List (List (RunClause × Outcome)) × List String
  | [], sset => ([], sset)
  | suite :: rest, sset =>
      let (tr, sset1) := traceSuite tags_filter suite sset
      let (trs, sset2) := tracePhases tags_filter rest sset1
      (tr :: trs, sset2)

/-! Elementary relations between the runner and the trace. -/

theorem runSuite_sset_eq_traceSuite (threshold : Nat) (tags_filter : List String)
    (cs : List RunClause) : ∀ st sset,
    (runSuite threshold tags_filter cs st sset).2 =
      (traceSuite tags_filter cs sset).2 := by
  induction cs with
  | nil => intro st sset; rfl
  | cons c rest ih =>
      intro st sset
      simp only [runSuite, traceSuite, runClause]
      cases h : outcomeOf tags_filter sset c <;>
        simp [h, addSuccess, ih]

theorem traceSuite_sset (tags_filter : List String) (cs : List RunClause) :
    ∀ sset, (traceSuite tags_filter cs sset).2 =
      sset ++ ((traceSuite tags_filter cs sset).1.filter
        (fun p => p.2 = .pass)).map (fun p => p.1.name) := by
  induction cs with
  | nil => intro sset; simp [traceSuite]
  | cons c rest ih =>
      intro sset
      simp only [traceSuite]
      cases h : outcomeOf tags_filter sset c <;>
        simp [h, ih (sset ++ [c.name]), ih sset, List.filter, List.append_assoc]

/-- The success flag computed by a suite, in terms of its trace: it ends
false exactly when it began false or some clause was recorded FAIL or
ERROR at a level reaching the threshold. -/
theorem runSuite_success_iff (threshold : Nat) (tags_filter : List String)
    (cs : List RunClause) : ∀ st sset,
    (runSuite threshold tags_filter cs st sset).1.success = false ↔
      (st.success = false ∨
        ∃ p ∈ (traceSuite tags_filter cs sset).1,
          (p.2 = Outcome.fail ∨ p.2 = Outcome.error) ∧
            threshold ≤ p.1.error_level) := by
  induction cs with
  | nil => intro st sset; simp [runSuite, traceSuite]
  | cons c rest ih =>
      intro st sset
      simp only [runSuite, traceSuite, runClause]
      cases h : outcomeOf tags_filter sset c with
      | pass =>
          simp only [h, addSuccess]
          rw [ih]
          simp
      | skip =>
          simp only [h, addSkip]
          rw [ih]
          simp
      | fail =>
          simp only [h, addFailure, update_error_stats]
          rw [ih]
          by_cases hth : threshold ≤ c.error_level <;> simp [hth]
      | error =>
          simp only [h, addError, update_error_stats]
          rw [ih]
          by_cases hth : threshold ≤ c.error_level <;> simp [hth]

/-- The overall `validation_passed` flag in terms of the per-phase traces. -/
theorem validateRun_passed_iff (threshold : Nat) (tags_filter : List String)
    (phases : List (List RunClause)) : ∀ passed sset,
    (validateRun threshold tags_filter phases passed sset).1 = false ↔
      (passed = false ∨
        ∃ tr ∈ (tracePhases tags_filter phases sset).1, ∃ p ∈ tr,
          (p.2 = Outcome.fail ∨ p.2 = Outcome.error) ∧
            threshold ≤ p.1.error_level) := by
  induction phases with
  | nil => intro passed sset; simp [validateRun, tracePhases]
  | cons suite rest ih =>
      intro passed sset
      simp only [validateRun, tracePhases]
      rw [ih]
      rw [runSuite_sset_eq_traceSuite]
      constructor
      · rintro (hp | h)
        · rcases Bool.and_eq_false_iff.mp hp with h1 | h2
          · exact Or.inl h1
          · refine Or.inr ?_
            rcases (runSuite_success_iff threshold tags_filter suite
                initResult sset).mp h2 with h3 | ⟨p, hp1, hp2⟩
            · simp [initResult] at h3
            · exact ⟨(traceSuite tags_filter suite sset).1, by simp, p, hp1, hp2⟩
        · rcases h with ⟨tr, htr, p, hp1, hp2⟩
          exact Or.inr ⟨tr, by simp [htr], p, hp1, hp2⟩
      · rintro (hp | ⟨tr, htr, p, hp1, hp2⟩)
        · exact Or.inl (by simp [hp])
        · simp only [List.mem_cons] at htr
          rcases htr with rfl | htr
          · refine Or.inl (Bool.and_eq_false_iff.mpr (Or.inr ?_))
            exact (runSuite_success_iff threshold tags_filter suite
              initResult sset).mpr (Or.inr ⟨p, hp1, hp2⟩)
          · exact Or.inr ⟨tr, htr, p, hp1, hp2⟩

/-- Splitting a suite trace at an arbitrary point. -/
theorem traceSuite_append (tags_filter : List String) (cs1 cs2 : List RunClause) :
    ∀ sset,
    traceSuite tags_filter (cs1 ++ cs2) sset =
      ((traceSuite tags_filter cs1 sset).1 ++
        (traceSuite tags_filter cs2 (traceSuite tags_filter cs1 sset).2).1,
       (traceSuite tags_filter cs2 (traceSuite tags_filter cs1 sset).2).2) := by
  induction cs1 with
  | nil => intro sset; simp [traceSuite]
  | cons c rest ih =>
      intro sset
      simp only [List.cons_append, traceSuite]
      rw [show rest.append cs2 = rest ++ cs2 from rfl, ih]

/-- Phase structure is invisible to the outcome trace: tracing the phases
one by one agrees with tracing the concatenation of all suites. -/
theorem tracePhases_flatten (tags_filter : List String)
    (phases : List (List RunClause)) : ∀ sset,
    (tracePhases tags_filter phases sset).1.flatten =
        (traceSuite tags_filter phases.flatten sset).1 ∧
      (tracePhases tags_filter phases sset).2 =
        (traceSuite tags_filter phases.flatten sset).2 := by
  induction phases with
  | nil => intro sset; simp [tracePhases, traceSuite]
  | cons suite rest ih =>
      intro sset
      simp only [tracePhases, List.flatten, traceSuite_append]
      constructor
      · simp [(ih _).1]
      · simp [(ih _).2]

/-! ### Claim C1 -/

/-- A concrete one-clause run used for the WARNING-vs-FATAL instance of
claim C1: a clause of severity WARNING whose body fails. -/
def warnFailClause : RunClause :=
  { name := "W", error_level := WARNING, tags := [], dependencies := [],
    raw := RawOutcome.fail }

/-- Claim C1: the overall success flag of a validation run ends false if
and only if some clause recorded FAIL or ERROR has severity at or above
the threshold; in particular a WARNING-severity failure passes at
threshold FATAL and fails at threshold WARNING. -/
theorem claim_c1_success_threshold :
    (∀ (threshold : Nat) (tags_filter : List String)
        (phases : List (List RunClause)),
      (validateRun threshold tags_filter phases true []).1 = false ↔
        ∃ tr ∈ (tracePhases tags_filter phases []).1, ∃ p ∈ tr,
          (p.2 = Outcome.fail ∨ p.2 = Outcome.error) ∧
            threshold ≤ p.1.error_level) ∧
      (validateRun FATAL [] [[warnFailClause]] true []).1 = true ∧
      (validateRun WARNING [] [[warnFailClause]] true []).1 = false := by
  refine ⟨?_, by decide, by decide⟩
  intro threshold tags_filter phases
  rw [validateRun_passed_iff]
  simp

/-! ### Claim C2 -/

/-- Claim C2: a clause with a dependency that is not in the success set is
recorded SKIP (never PASS, FAIL or ERROR); the success set consists
exactly of the initial set followed by the names of clauses that PASSed,
with phase boundaries invisible to it; and recording a SKIP changes
neither the success flag nor the per-severity error counts. -/
theorem claim_c2_dependency_skip :
    (∀ (tags_filter sset : List String) (c : RunClause) (d : String),
      d ∈ c.dependencies → d ∉ sset →
        outcomeOf tags_filter sset c = Outcome.skip) ∧
      (∀ (tags_filter : List String) (cs : List RunClause) (sset : List String),
        (traceSuite tags_filter cs sset).2 =
          sset ++ ((traceSuite tags_filter cs sset).1.filter
            (fun p => p.2 = Outcome.pass)).map (fun p => p.1.name)) ∧
      (∀ (tags_filter : List String) (phases : List (List RunClause))
          (sset : List String),
        (tracePhases tags_filter phases sset).2 =
          (traceSuite tags_filter phases.flatten sset).2) ∧
      (∀ (st : TestResultState) (c : RunClause),
        (addSkip st c).success = st.success ∧
          (addSkip st c).error_stats = st.error_stats) := by
  refine ⟨?_, ?_, ?_, ?_⟩
  · intro tags_filter sset c d hd hnot
    unfold outcomeOf
    have : c.dependencies.any (fun x => decide (x ∉ sset)) = true :=
      List.any_eq_true.mpr ⟨d, hd, by simpa using hnot⟩
    simp only [this]
    simp
  · intro tags_filter cs sset
    exact traceSuite_sset tags_filter cs sset
  · intro tags_filter phases sset
    exact (tracePhases_flatten tags_filter phases sset).2
  · intro st c
    exact ⟨rfl, rfl⟩

/-- Concrete witness for claim C2: a clause `Y` depending on `X` while `X`
is absent from the success set is recorded SKIP, and a SKIP leaves the
result state's flag and stats unchanged. -/
theorem claim_c2_dependency_skip_witness :
    outcomeOf [] ["Z"]
        { name := "Y", error_level := FATAL, tags := [],
          dependencies := ["X"], raw := RawOutcome.pass } = Outcome.skip ∧
      (addSkip initResult warnFailClause).success = initResult.success := by
  constructor
  · exact claim_c2_dependency_skip.1 [] ["Z"]
      { name := "Y", error_level := FATAL, tags := [],
        dependencies := ["X"], raw := RawOutcome.pass } "X"
      (by decide) (by decide)
  · exact (claim_c2_dependency_skip.2.2.2 initResult warnFailClause).1

/-! ### Clause resolution model (ContractValidator, contract.py lines 613-846)

A `Clause` stands for a ContractClause class after hook generation: the
name is the class name (the key of `ContractValidator._clause_dict`), and
the four reference sets hold clause names.  Python's sets of classes
become lists of names; union is concatenation with duplicate filtering. -/

/-- A contract clause class as the resolver sees it. -/
structure Clause where
  name : String
  lifecycle_point : Nat
  error_level : Nat
  tags : List String
  dependencies : List String
  dependents : List String
  before : List String
  after : List String
deriving DecidableEq, Repr

instance : Inhabited Clause :=
  ⟨{ name := "", lifecycle_point := 0, error_level := 0, tags := [],
     dependencies := [], dependents := [], before := [], after := [] }⟩

/-- The clause dictionary `_clause_dict`, keyed by class name. -/
abbrev ClauseDict := List Clause

/-- Names present in the dictionary. -/
def clauseNames (cd : ClauseDict) : List String := cd.map (fun c => c.name)

/-- Dictionary lookup; the default is never reached on names that pass the
membership test. -/
def lookupD (cd : ClauseDict) (n : String) : Clause :=
  (cd.find? (fun c => c.name = n)).getD default

/-- `clause_class.dependencies | clause_class.before` — the combined edge
set the DFS traverses (contract.py line 807), as a duplicate-free list. -/
def edgeTargets (c : Clause) : List String :=
  c.dependencies ++ c.before.filter (fun n => n ∉ c.dependencies)

/-- The payload of a CircularDependencyError: either the loop message
built by `ContractValidator.display_loop` (contract.py lines 741-763),
kept as the list of clause names joined by arrows, or the phase message of
contract.py lines 810-814 (`u->v: Clause cannot have earlier
lifecycle_point than a clause that must run before it.`). -/
inductive CircMsg where
  | loop (path : List String)
  | phaseOrder (clauseName depName : String)
deriving DecidableEq, Repr

/-- The exceptions resolution can raise: `errors.CircularDependencyError`
(the only custom resolver error defined in validator/errors.py), the
builtin `ValueError` of the singular-point check (contract.py lines
837-841), and `utils.AppstartAbort` for an unresolvable clause name
(contract.py lines 698-707). -/
inductive PyError where
  | circularDependencyError (msg : CircMsg)
  | valueError (point : Nat)
  | appstartAbort (msg : String)
  | keyboardInterrupt
deriving DecidableEq, Repr

/-- `display_loop`: the portion of the recursion stack from the first
occurrence of the revisited clause, with that clause appended
(contract.py lines 741-763; the python code joins these names with
`->`). -/
def display_loop (stack : List String) (cls : String) : List String :=
  stack.drop (stack.indexOf cls) ++ [cls]

/-- The state built up by `ContractValidator._add_clause`: the set of
added clause classes (`self.__added_clauses`, kept in addition order) and
the contract (`self.contract`), kept as the addition-ordered list of
(lifecycle point, clause name) pairs. -/
structure RState where
  added : List String
  contract : List (Nat × String)
deriving DecidableEq, Repr

/-- The empty resolution state. -/
def initRState : RState := { added := [], contract := [] }

/-- The per-phase clause list `self.contract[point]`, in addition order. -/
def planAt (st : RState) (point : Nat) : List String :=
  (st.contract.filter (fun e => e.1 = point)).map (fun e => e.2)

/-- Termination measure for the DFS: the number of dictionary names not
yet on the recursion stack. -/
def dfsMeasure (cd : ClauseDict) (stack : List String) : Nat :=
  ((clauseNames cd).toFinset \ stack.toFinset).card

theorem dfsMeasure_lt (cd : ClauseDict) (stack : List String) (c : String)
    (hmem : c ∈ clauseNames cd) (hnot : c ∉ stack) :
    dfsMeasure cd (stack ++ [c]) < dfsMeasure cd stack := by
  apply Finset.card_lt_card
  constructor
  · intro x hx
    simp only [dfsMeasure, Finset.mem_sdiff, List.toFinset_append,
      List.mem_toFinset, Finset.mem_union, List.toFinset_cons,
      List.toFinset_nil, Finset.mem_insert] at hx ⊢
    exact ⟨hx.1, fun h => hx.2 (Or.inl h)⟩
  · intro hsub
    have hc : c ∈ (clauseNames cd).toFinset \ stack.toFinset := by
      simp [Finset.mem_sdiff, List.mem_toFinset, hmem, hnot]
    have h2 := hsub hc
    simp [Finset.mem_sdiff, List.mem_toFinset] at h2

mutual
/-- `ContractValidator._add_clause` (contract.py lines 765-846).  The
recursion stack doubles as the `visited_classes` set: the python code adds
to and removes from both in lockstep, so membership in the stack is
exactly membership in `visited_classes`. -/
def add_clause (cd : ClauseDict) (cname : String) (stack : List String)
    (st : RState) : Except PyError RState :=
  if cname ∈ st.added then .ok st
  else if hst : cname ∈ stack then
    .error (.circularDependencyError (.loop (display_loop stack cname)))
  else if hmem : cname ∈ clauseNames cd then
    match add_deps cd (edgeTargets (lookupD cd cname)) (lookupD cd cname)
        (stack ++ [cname]) st with
    | .error e => .error e
    | .ok st1 =>
        if (lookupD cd cname).lifecycle_point ∈ SINGULAR_POINTS ∧
            planAt st1 ((lookupD cd cname).lifecycle_point) ≠ []
        then .error (.valueError ((lookupD cd cname).lifecycle_point))
        else .ok { added := st1.added ++ [cname],
                   contract := st1.contract ++
                     [((lookupD cd cname).lifecycle_point, cname)] }
  else .error (.appstartAbort cname)
termination_by (dfsMeasure cd stack, 0, 0)
decreasing_by
  exact Prod.Lex.left _ _ (dfsMeasure_lt cd stack cname hmem hst)

/-- The loop body `for dep in clause_class.dependencies | clause_class.before`
of `_add_clause`: check the phase of each prerequisite, then recurse on
it (contract.py lines 807-820). -/
def add_deps (cd : ClauseDict) (deps : List String) (c : Clause)
    (stack : List String) (st : RState) : Except PyError RState :=
  match deps with
  | [] => .ok st
  | d :: rest =>
      if c.lifecycle_point < (lookupD cd d).lifecycle_point then
        .error (.circularDependencyError (.phaseOrder c.name d))
      else
        match add_clause cd d stack st with
        | .error e => .error e
        | .ok st1 => add_deps cd rest c stack st1
termination_by (dfsMeasure cd stack, 1, deps.length)
decreasing_by
  · exact Prod.Lex.right _ (Prod.Lex.left _ _ (by omega))
  · exact Prod.Lex.right _ (Prod.Lex.right _ (by simp))
end

/-- `ContractValidator._construct_contract` (contract.py lines 736-739):
add every clause of the dictionary, in dictionary iteration order. -/
def construct_contract (cd : ClauseDict) : List String → RState → Except PyError RState
  | [], st => .ok st
  | n :: rest, st =>
      match add_clause cd n [] st with
      | .error e => .error e
      | .ok st1 => construct_contract cd rest st1

/-! ### Name resolution and inverse-edge folding
(`ContractValidator._normalize_clause_dict`, contract.py lines 669-734) -/

/-- Add a name to a set kept as a list, if absent (python `set.add`). -/
def addIfAbsent (x : String) (l : List String) : List String :=
  if x ∈ l then l else l ++ [x]

/-- All clause names referenced by a clause. -/
def allRefs (c : Clause) : List String :=
  c.dependencies ++ c.dependents ++ c.before ++ c.after

/-- Whether every reference of every clause resolves in the dictionary
(the `_resolve_name` calls of `_normalize_clause_dict`). -/
def resolveCheck (cd : ClauseDict) : Bool :=
  cd.all (fun c => (allRefs c).all (fun n => n ∈ clauseNames cd))

/-- One folding step: `If X has dependent A, add X to A's dependencies`
and `for after_clause in clause.after: after_clause.before.add(clause)`
(contract.py lines 727-734). -/
def foldClause (x : Clause) (cd : ClauseDict) : ClauseDict :=
  cd.map (fun c =>
    let c1 :=
      if c.name ∈ x.dependents then
        { c with dependencies := addIfAbsent x.name c.dependencies }
      else c
    if c.name ∈ x.after then
      { c1 with before := addIfAbsent x.name c1.before }
    else c1)

/-- The inverse-edge folding pass over the whole dictionary.  The python
loop mutates the clause classes in place while iterating; folding only
ever touches `dependencies` and `before`, never `dependents` or `after`,
so iterating over the original `dependents`/`after` sets is faithful. -/
def normalizeFold (cd : ClauseDict) : ClauseDict :=
  cd.foldl (fun acc x => foldClause x acc) cd

/-- `_normalize_clause_dict`: resolve every name (failing with
AppstartAbort on an unresolvable one), then fold inverse edges. -/
def normalize_clause_dict (cd : ClauseDict) : Except PyError ClauseDict :=
  if resolveCheck cd then .ok (normalizeFold cd) else .error (.appstartAbort "unresolved")

/-- Full resolution as run by `ContractValidator.__init__`: normalize the
dictionary, then construct the contract by DFS over the given iteration
order. -/
def resolveContract (cd : ClauseDict) (order : List String) : Except PyError RState :=
  match normalize_clause_dict cd with
  | .error e => .error e
  | .ok ncd => construct_contract ncd order initRState

/-! ### Invariants maintained by the DFS -/

theorem lookupD_name (cd : ClauseDict) (n : String) (h : n ∈ clauseNames cd) :
    (lookupD cd n).name = n := by
  unfold lookupD
  cases hf : cd.find? (fun c => c.name = n) with
  | none =>
      obtain ⟨c, hc, hcn⟩ := List.mem_map.mp h
      have := List.find?_eq_none.mp hf c hc
      simp [hcn] at this
  | some c =>
      have := List.find?_some hf
      simpa using this

theorem mem_edgeTargets_of_before {c : Clause} {a : String} (h : a ∈ c.before) :
    a ∈ edgeTargets c := by
  unfold edgeTargets
  by_cases hd : a ∈ c.dependencies
  · exact List.mem_append_left _ hd
  · exact List.mem_append_right _ (List.mem_filter.mpr ⟨h, by simpa using hd⟩)

theorem mem_edgeTargets_of_dependencies {c : Clause} {a : String}
    (h : a ∈ c.dependencies) : a ∈ edgeTargets c :=
  List.mem_append_left _ h

/-- The invariant maintained by `_add_clause`: the added list is
duplicate-free, the contract lists exactly the added clauses with their
own lifecycle points, every added clause has all its prerequisites added
before it (never at a later lifecycle point, and earlier within the same
per-phase list), and singular points hold at most one clause. -/
def Inv (cd : ClauseDict) (st : RState) : Prop :=
  st.added.Nodup ∧
  st.contract.map (fun e => e.2) = st.added ∧
  (∀ e ∈ st.contract, e.1 = (lookupD cd e.2).lifecycle_point) ∧
  (∀ n ∈ st.added, n ∈ clauseNames cd ∧
    ∀ d ∈ edgeTargets (lookupD cd n),
      (lookupD cd d).lifecycle_point ≤ (lookupD cd n).lifecycle_point ∧
      d ∈ st.added ∧ st.added.indexOf d < st.added.indexOf n ∧
      ((lookupD cd d).lifecycle_point = (lookupD cd n).lifecycle_point →
        [d, n].Sublist (planAt st ((lookupD cd n).lifecycle_point)))) ∧
  (∀ p ∈ SINGULAR_POINTS, (planAt st p).length ≤ 1)

theorem inv_init (cd : ClauseDict) : Inv cd initRState := by
  refine ⟨List.nodup_nil, rfl, ?_, ?_, ?_⟩ <;> simp [initRState, planAt]

/-- What a successful `_add_clause` or dependency loop call guarantees
about the state transition. -/
structure AddOut (cd : ClauseDict) (stack : List String) (st st' : RState) : Prop where
  addedExt : ∃ t, st'.added = st.added ++ t
  contractExt : ∃ t, st'.contract = st.contract ++ t
  freshNotStack : ∀ n ∈ st'.added, n ∉ st.added → n ∉ stack
  inv : Inv cd st → Inv cd st'

theorem AddOut.rfl (cd : ClauseDict) (stack : List String) (st : RState) :
    AddOut cd stack st st :=
  ⟨⟨[], by simp⟩, ⟨[], by simp⟩, fun _ hn hnn => absurd hn hnn, fun h => h⟩

theorem AddOut.mem_mono {cd : ClauseDict} {stack : List String} {st st' : RState}
    (h : AddOut cd stack st st') {n : String} (hn : n ∈ st.added) : n ∈ st'.added := by
  obtain ⟨t, ht⟩ := h.addedExt
  rw [ht]
  exact List.mem_append_left _ hn

theorem AddOut.trans {cd : ClauseDict} {stack : List String} {st1 st2 st3 : RState}
    (h12 : AddOut cd stack st1 st2) (h23 : AddOut cd stack st2 st3) :
    AddOut cd stack st1 st3 := by
  refine ⟨?_, ?_, ?_, fun h => h23.inv (h12.inv h)⟩
  · obtain ⟨t1, ht1⟩ := h12.addedExt
    obtain ⟨t2, ht2⟩ := h23.addedExt
    exact ⟨t1 ++ t2, by rw [ht2, ht1, List.append_assoc]⟩
  · obtain ⟨t1, ht1⟩ := h12.contractExt
    obtain ⟨t2, ht2⟩ := h23.contractExt
    exact ⟨t1 ++ t2, by rw [ht2, ht1, List.append_assoc]⟩
  · intro n hn3 hn1
    by_cases hn2 : n ∈ st2.added
    · exact h12.freshNotStack n hn2 hn1
    · exact h23.freshNotStack n hn3 hn2

theorem planAt_append (st : RState) (point : Nat) (cname : String) (p : Nat) :
    planAt { added := st.added ++ [cname],
             contract := st.contract ++ [(point, cname)] } p =
      planAt st p ++ if point = p then [cname] else [] := by
  unfold planAt
  by_cases hp : point = p <;> simp [hp, List.filter_append]

/-- Appending a new clause (the final step of `_add_clause`) preserves the
invariant, given everything the guard checks and the dependency loop
established. -/
theorem inv_append (cd : ClauseDict) (st1 : RState) (cname : String)
    (hInv : Inv cd st1)
    (hmem : cname ∈ clauseNames cd)
    (hnotin : cname ∉ st1.added)
    (hsing : ¬((lookupD cd cname).lifecycle_point ∈ SINGULAR_POINTS ∧
        planAt st1 ((lookupD cd cname).lifecycle_point) ≠ []))
    (hedges : ∀ d ∈ edgeTargets (lookupD cd cname),
        d ∈ st1.added ∧
          (lookupD cd d).lifecycle_point ≤ (lookupD cd cname).lifecycle_point) :
    Inv cd { added := st1.added ++ [cname],
             contract := st1.contract ++
               [((lookupD cd cname).lifecycle_point, cname)] } := by
  obtain ⟨hnd, hmap, hphase, hadded, hsg⟩ := hInv
  refine ⟨?_, ?_, ?_, ?_, ?_⟩
  · simpa [List.nodup_append] using ⟨hnd, hnotin⟩
  · simp [hmap]
  · intro e he
    rcases List.mem_append.mp he with h | h
    · exact hphase e h
    · simp only [List.mem_singleton] at h
      subst h
      rfl
  · intro n hn
    rcases List.mem_append.mp hn with hn1 | hn1
    · obtain ⟨hnames, hedge⟩ := hadded n hn1
      refine ⟨hnames, fun d hd => ?_⟩
      obtain ⟨h1, h2, h3, h4⟩ := hedge d hd
      refine ⟨h1, List.mem_append_left _ h2, ?_, ?_⟩
      · rw [List.indexOf_append_of_mem h2, List.indexOf_append_of_mem hn1]
        exact h3
      · intro heq
        rw [planAt_append]
        exact (h4 heq).trans (List.sublist_append_left _ _)
    · simp only [List.mem_singleton] at hn1
      subst hn1
      refine ⟨hmem, fun d hd => ?_⟩
      obtain ⟨hd1, hd2⟩ := hedges d hd
      have hdn : d ≠ n := fun h => hnotin (h ▸ hd1)
      refine ⟨hd2, List.mem_append_left _ hd1, ?_, ?_⟩
      · rw [List.indexOf_append_of_mem hd1,
          List.indexOf_append_of_not_mem hnotin]
        have := List.indexOf_lt_length.mpr hd1
        simp only [List.indexOf_cons_self]
        omega
      · intro heq
        rw [planAt_append]
        simp only [if_pos rfl]
        have hdplan : d ∈ planAt st1 ((lookupD cd n).lifecycle_point) := by
          have hd' : d ∈ st1.contract.map (fun e => e.2) := by rw [hmap]; exact hd1
          obtain ⟨e, he, he2⟩ := List.mem_map.mp hd'
          have := hphase e he
          unfold planAt
          refine List.mem_map.mpr ⟨e, List.mem_filter.mpr ⟨he, ?_⟩, he2⟩
          simp [this, he2, heq]
        have : List.Sublist ([d] ++ [n])
            (planAt st1 ((lookupD cd n).lifecycle_point) ++ [n]) :=
          List.Sublist.append (List.singleton_sublist.mpr hdplan)
            (List.Sublist.refl _)
        simpa using this
  · intro p hp
    rw [planAt_append]
    by_cases hpp : (lookupD cd cname).lifecycle_point = p
    · have hin : (lookupD cd cname).lifecycle_point ∈ SINGULAR_POINTS := hpp ▸ hp
      have hempty : planAt st1 ((lookupD cd cname).lifecycle_point) = [] := by
        by_contra hne
        exact hsing ⟨hin, hne⟩
      rw [if_pos hpp, ← hpp, hempty]
      simp
    · rw [if_neg hpp]
      simpa using hsg p hp

/-- Unfolding lemma for the empty dependency list. -/
theorem add_deps_nil (cd : ClauseDict) (c : Clause) (stack : List String)
    (st : RState) : add_deps cd [] c stack st = .ok st := by
  rw [add_deps.eq_def]

/-- Unfolding lemma for a nonempty dependency list. -/
theorem add_deps_cons (cd : ClauseDict) (d : String) (rest : List String)
    (c : Clause) (stack : List String) (st : RState) :
    add_deps cd (d :: rest) c stack st =
      if c.lifecycle_point < (lookupD cd d).lifecycle_point then
        .error (.circularDependencyError (.phaseOrder c.name d))
      else
        match add_clause cd d stack st with
        | .error e => .error e
        | .ok st1 => add_deps cd rest c stack st1 := by
  rw [add_deps.eq_def]

/-- Joint preservation statement for `add_clause` and `add_deps`, proved
by strong induction on the termination measure: a successful call only
appends to the state, the appended clauses are not on the recursion
stack, the invariant is preserved, the added clause ends up added, and
the dependency loop leaves every processed prerequisite added and
phase-checked. -/
theorem add_mutual : ∀ (N : Nat) (cd : ClauseDict) (stack : List String),
    dfsMeasure cd stack ≤ N →
    ((∀ cname st st', add_clause cd cname stack st = .ok st' →
        AddOut cd stack st st' ∧ cname ∈ st'.added) ∧
      (∀ deps c st st', add_deps cd deps c stack st = .ok st' →
        AddOut cd stack st st' ∧
          ∀ d ∈ deps, d ∈ st'.added ∧
            (lookupD cd d).lifecycle_point ≤ c.lifecycle_point)) := by
  intro N
  induction N using Nat.strong_induction_on with
  | _ N IH =>
    intro cd stack hN
    have hclause : ∀ cname st st', add_clause cd cname stack st = .ok st' →
        AddOut cd stack st st' ∧ cname ∈ st'.added := by
      intro cname st st' hok
      rw [add_clause.eq_def] at hok
      by_cases h1 : cname ∈ st.added
      · rw [if_pos h1] at hok
        cases hok
        exact ⟨AddOut.rfl cd stack st, h1⟩
      · rw [if_neg h1] at hok
        by_cases h2 : cname ∈ stack
        · rw [dif_pos h2] at hok
          exact absurd hok (by simp)
        · rw [dif_neg h2] at hok
          by_cases h3 : cname ∈ clauseNames cd
          · rw [dif_pos h3] at hok
            cases hdeps : add_deps cd (edgeTargets (lookupD cd cname))
                (lookupD cd cname) (stack ++ [cname]) st with
            | error e =>
                simp only [hdeps] at hok
                exact absurd hok (by simp)
            | ok st1 =>
                simp only [hdeps] at hok
                by_cases h4 : (lookupD cd cname).lifecycle_point ∈ SINGULAR_POINTS ∧
                    planAt st1 ((lookupD cd cname).lifecycle_point) ≠ []
                · rw [if_pos h4] at hok
                  exact absurd hok (by simp)
                · rw [if_neg h4] at hok
                  cases hok
                  have hlt : dfsMeasure cd (stack ++ [cname]) < dfsMeasure cd stack :=
                    dfsMeasure_lt cd stack cname h3 h2
                  have hIH := (IH (dfsMeasure cd (stack ++ [cname]))
                    (lt_of_lt_of_le hlt hN) cd (stack ++ [cname]) (le_refl _)).2
                  obtain ⟨hout1, hdepfacts⟩ := hIH _ _ _ _ hdeps
                  have hnotin1 : cname ∉ st1.added := fun hin =>
                    (hout1.freshNotStack cname hin h1) (by simp)
                  refine ⟨⟨?_, ?_, ?_, ?_⟩, by simp⟩
                  · obtain ⟨t, ht⟩ := hout1.addedExt
                    exact ⟨t ++ [cname], by simp [ht]⟩
                  · obtain ⟨t, ht⟩ := hout1.contractExt
                    exact ⟨t ++ [((lookupD cd cname).lifecycle_point, cname)],
                      by simp [ht]⟩
                  · intro n hn hnn
                    rcases List.mem_append.mp hn with hn1 | hn1
                    · intro hns
                      exact (hout1.freshNotStack n hn1 hnn)
                        (List.mem_append_left _ hns)
                    · simp only [List.mem_singleton] at hn1
                      subst hn1
                      exact h2
                  · intro hi
                    exact inv_append cd st1 cname (hout1.inv hi) h3 hnotin1 h4
                      (fun d hd => hdepfacts d hd)
          · rw [dif_neg h3] at hok
            exact absurd hok (by simp)
    have hdeps : ∀ deps c st st', add_deps cd deps c stack st = .ok st' →
        AddOut cd stack st st' ∧
          ∀ d ∈ deps, d ∈ st'.added ∧
            (lookupD cd d).lifecycle_point ≤ c.lifecycle_point := by
      intro deps
      induction deps with
      | nil =>
          intro c st st' hok
          rw [add_deps_nil] at hok
          cases hok
          exact ⟨AddOut.rfl cd stack st, by simp⟩
      | cons d rest ihd =>
          intro c st st' hok
          rw [add_deps_cons] at hok
          by_cases hph : c.lifecycle_point < (lookupD cd d).lifecycle_point
          · rw [if_pos hph] at hok
            exact absurd hok (by simp)
          · rw [if_neg hph] at hok
            cases hac : add_clause cd d stack st with
            | error e =>
                simp only [hac] at hok
                exact absurd hok (by simp)
            | ok st1 =>
                simp only [hac] at hok
                obtain ⟨hout1, hd1⟩ := hclause d st st1 hac
                obtain ⟨hout2, hrest⟩ := ihd c st1 st' hok
                refine ⟨hout1.trans hout2, ?_⟩
                intro x hx
                rcases List.mem_cons.mp hx with rfl | hx
                · exact ⟨hout2.mem_mono hd1, not_lt.mp hph⟩
                · exact hrest x hx
    exact ⟨hclause, hdeps⟩

/-- A successful contract construction preserves the invariant and adds
every clause of the iteration order. -/
theorem construct_ok (cd : ClauseDict) : ∀ (order : List String) (st st' : RState),
    construct_contract cd order st = .ok st' → Inv cd st →
    Inv cd st' ∧ (∃ t, st'.added = st.added ++ t) ∧ ∀ n ∈ order, n ∈ st'.added := by
  intro order
  induction order with
  | nil =>
      intro st st' hok hi
      cases hok
      exact ⟨hi, ⟨[], by simp⟩, by simp⟩
  | cons n rest ih =>
      intro st st' hok hi
      simp only [construct_contract] at hok
      cases hac : add_clause cd n [] st with
      | error e =>
          rw [hac] at hok
          exact absurd hok (by simp)
      | ok st1 =>
          rw [hac] at hok
          obtain ⟨hout, hn1⟩ :=
            ((add_mutual (dfsMeasure cd []) cd [] (le_refl _)).1) n st st1 hac
          obtain ⟨hinv1, ⟨t2, ht2⟩, hall⟩ := ih st1 st' hok (hout.inv hi)
          obtain ⟨t1, ht1⟩ := hout.addedExt
          refine ⟨hinv1, ⟨t1 ++ t2, by rw [ht2, ht1, List.append_assoc]⟩, ?_⟩
          intro m hm
          rcases List.mem_cons.mp hm with rfl | hm
          · rw [ht2]; exact List.mem_append_left _ hn1
          · exact hall m hm

/-! ### Claim C3: cycles -/

/-- A concrete clause with only dependency and after edges, used by the
concrete scenarios. -/
def mkClause (n : String) (point : Nat) (deps afters : List String) : Clause :=
  { name := n, lifecycle_point := point, error_level := UNUSED, tags := [],
    dependencies := deps, dependents := [], before := [], after := afters }

/-- An edge of the combined dependencies-union-before relation of the
dictionary. -/
def depEdge (cd : ClauseDict) (a b : String) : Prop :=
  a ∈ clauseNames cd ∧ b ∈ edgeTargets (lookupD cd a)

instance (cd : ClauseDict) (a b : String) : Decidable (depEdge cd a b) :=
  inferInstanceAs (Decidable (a ∈ clauseNames cd ∧ b ∈ edgeTargets (lookupD cd a)))

/-- A nonempty cyclic path in the edge relation: consecutive elements are
edges, and the last element has an edge back to the first. -/
def IsCycleList (cd : ClauseDict) (l : List String) : Prop :=
  l ≠ [] ∧ List.Chain (depEdge cd) l.headI (l.tail ++ [l.headI])

instance (cd : ClauseDict) (l : List String) : Decidable (IsCycleList cd l) :=
  inferInstanceAs
    (Decidable (l ≠ [] ∧ List.Chain (depEdge cd) l.headI (l.tail ++ [l.headI])))

theorem chain_last_lt {r : String → String → Prop} (f : String → Nat)
    (hstep : ∀ x y, r x y → f y < f x) :
    ∀ (l : List String) (a b : String), List.Chain r a l →
      l.getLast? = some b → f b < f a := by
  intro l
  induction l with
  | nil => intro a b _ hl; simp at hl
  | cons x xs ih =>
      intro a b hch hl
      rcases List.chain_cons.mp hch with ⟨hax, hxs⟩
      cases xs with
      | nil =>
          simp only [List.getLast?_singleton, Option.some.injEq] at hl
          subst hl
          exact hstep _ _ hax
      | cons y ys =>
          have hlast : (y :: ys).getLast? = some b := by
            simpa using hl
          exact lt_trans (ih x b hxs hlast) (hstep _ _ hax)

/-- Any cyclic clause dictionary makes contract construction fail, for
every iteration order that covers the dictionary. -/
theorem cyclic_fails (cd : ClauseDict) (order l : List String)
    (hcyc : IsCycleList cd l) (hord : ∀ n ∈ clauseNames cd, n ∈ order) :
    ∃ e, construct_contract cd order initRState = .error e := by
  cases hres : construct_contract cd order initRState with
  | error e => exact ⟨e, rfl⟩
  | ok st' =>
      exfalso
      obtain ⟨hinv, _, hall⟩ := construct_ok cd order initRState st' hres (inv_init cd)
      obtain ⟨hne, hchain⟩ := hcyc
      have hstep : ∀ x y, depEdge cd x y →
          st'.added.indexOf y < st'.added.indexOf x := by
        rintro x y ⟨hx, hy⟩
        have hxadd : x ∈ st'.added := hall x (hord x hx)
        obtain ⟨_, hedge⟩ := hinv.2.2.2.1 x hxadd
        exact (hedge y hy).2.2.1
      have := chain_last_lt (fun n => st'.added.indexOf n) hstep
        (l.tail ++ [l.headI]) l.headI l.headI hchain (List.getLast?_concat _)
      omega

/-- The loop message always closes on itself: the path built by
`display_loop` starts and ends with the revisited clause. -/
theorem display_loop_closed : ∀ (stack : List String) (c : String), c ∈ stack →
    (display_loop stack c).head? = some c ∧
      (display_loop stack c).getLast? = some c := by
  intro stack
  induction stack with
  | nil => intro c h; simp at h
  | cons x xs ih =>
      intro c h
      by_cases hxc : x = c
      · subst hxc
        unfold display_loop
        rw [List.indexOf_cons_self]
        exact ⟨by simp, List.getLast?_concat _⟩
      · have hc : c ∈ xs := by
          rcases List.mem_cons.mp h with h1 | h1
          · exact absurd h1.symm hxc
          · exact h1
        unfold display_loop at ih ⊢
        rw [List.indexOf_cons_ne _ hxc, List.drop_succ_cons]
        exact ih c hc

/-- A cycle whose two clauses sit at different lifecycle points: the DFS
hits the phase check before closing the loop. -/
def mixedCycleDict : ClauseDict :=
  [mkClause "A" PRE_START ["B"] [], mkClause "B" POST_START ["A"] []]

/-- A cycle whose clauses share a lifecycle point: the DFS revisits a
clause on the stack and reports the loop path. -/
def samePhaseCycleDict : ClauseDict :=
  [mkClause "A" POST_START ["B"] [], mkClause "B" POST_START ["A"] []]

/-- Claim C3, counterexample: on the mixed-phase cycle the resolver does
raise CircularDependencyError, but its message is the phase message
`A->B: Clause cannot have earlier lifecycle_point ...`, not a cycle path,
so no reported path starts and ends at the same clause name. -/
theorem claim_c3_counterexample :
    IsCycleList mixedCycleDict ["A", "B"] ∧
      resolveContract mixedCycleDict ["A", "B"] =
        .error (.circularDependencyError (.phaseOrder "A" "B")) ∧
      ¬ ∃ path, resolveContract mixedCycleDict ["A", "B"] =
          .error (.circularDependencyError (.loop path)) := by
  have hval : resolveContract mixedCycleDict ["A", "B"] =
      .error (.circularDependencyError (.phaseOrder "A" "B")) := by
    simp +decide [resolveContract, normalize_clause_dict, resolveCheck,
      normalizeFold, foldClause, addIfAbsent, allRefs, clauseNames,
      mixedCycleDict, mkClause, construct_contract, add_clause, add_deps,
      lookupD, edgeTargets, display_loop, planAt, initRState, List.find?,
      SINGULAR_POINTS, PRE_START, POST_START, START, STOP, UNUSED]
  refine ⟨⟨by decide, ?_⟩, hval, ?_⟩
  · simp +decide [depEdge, List.chain_cons, mixedCycleDict, mkClause,
      clauseNames, lookupD, edgeTargets, List.find?]
  rintro ⟨path, heq⟩
  rw [hval] at heq
  simp at heq

/-- Claim C3, amended: a cyclic clause set always makes resolution fail
(with CircularDependencyError when the failure is the cycle detector or
the phase check); whenever the loop detector reports a path, that path
starts and ends at the revisited clause's name; and on a same-phase
two-cycle the reported path is exactly `A->B->A`. -/
theorem claim_c3_amended :
    (∀ (cd : ClauseDict) (order l : List String), IsCycleList cd l →
        (∀ n ∈ clauseNames cd, n ∈ order) →
        ∃ e, construct_contract cd order initRState = .error e) ∧
      (∀ (stack : List String) (c : String), c ∈ stack →
        (display_loop stack c).head? = some c ∧
          (display_loop stack c).getLast? = some c) ∧
      resolveContract samePhaseCycleDict ["A", "B"] =
        .error (.circularDependencyError (.loop ["A", "B", "A"])) := by
  refine ⟨cyclic_fails, display_loop_closed, ?_⟩
  simp +decide [resolveContract, normalize_clause_dict, resolveCheck,
    normalizeFold, foldClause, addIfAbsent, allRefs, clauseNames,
    samePhaseCycleDict, mkClause, construct_contract, add_clause, add_deps,
    lookupD, edgeTargets, display_loop, planAt, initRState, List.find?,
    SINGULAR_POINTS, PRE_START, POST_START, START, STOP, UNUSED]

/-- Witness for claim C3: the general parts applied to the concrete
same-phase cycle and a concrete stack. -/
theorem claim_c3_amended_witness :
    (∃ e, construct_contract samePhaseCycleDict ["A", "B"] initRState =
        .error e) ∧
      (display_loop ["X"] "X").head? = some "X" := by
  constructor
  · refine claim_c3_amended.1 samePhaseCycleDict ["A", "B"] ["A", "B"]
      ⟨by decide, ?_⟩ (by decide)
    simp +decide [depEdge, List.chain_cons, samePhaseCycleDict, mkClause,
      clauseNames, lookupD, edgeTargets, List.find?]
  · exact (claim_c3_amended.2.1 ["X"] "X" (by decide)).1

/-! ### Claim C6: phase-ordering violations -/

/-- Whether an exception is an instance of `errors.CircularDependencyError`. -/
def isCircularDepErr : PyError → Bool
  | .circularDependencyError _ => true
  | _ => false

/-- A single phase-violating edge and no cycle: clause `B` at PRE_START
depends on clause `A` at POST_START. -/
def phaseViolationDict : ClauseDict :=
  [mkClause "A" POST_START [] [], mkClause "B" PRE_START ["A"] []]

/-- Concrete evaluation of the phase-violating dictionary. -/
theorem phaseViolation_eval :
    resolveContract phaseViolationDict ["B", "A"] =
      .error (.circularDependencyError (.phaseOrder "B" "A")) := by
  simp +decide [resolveContract, normalize_clause_dict, resolveCheck,
    normalizeFold, foldClause, addIfAbsent, allRefs, clauseNames,
    phaseViolationDict, mkClause, construct_contract, add_clause, add_deps,
    lookupD, edgeTargets, display_loop, planAt, initRState, List.find?,
    SINGULAR_POINTS, PRE_START, POST_START, START, STOP, UNUSED]

/-- Claim C6, counterexample: the phase-ordering violation is rejected,
but the exception raised is `errors.CircularDependencyError` itself (with
the phase message), not a distinct `PhaseOrderError`: validator/errors.py
defines no such class.  So the violation never fails with an error
distinct from the cycle error. -/
theorem claim_c6_counterexample :
    resolveContract phaseViolationDict ["B", "A"] =
        .error (.circularDependencyError (.phaseOrder "B" "A")) ∧
      ¬ ∃ e, resolveContract phaseViolationDict ["B", "A"] = .error e ∧
          isCircularDepErr e = false := by
  have hval := phaseViolation_eval
  refine ⟨hval, ?_⟩
  rintro ⟨e, he, hnc⟩
  rw [hval] at he
  obtain rfl : PyError.circularDependencyError (.phaseOrder "B" "A") = e :=
    by simpa using he
  simp [isCircularDepErr] at hnc

/-- Claim C6, amended: an edge whose prerequisite sits at a later
lifecycle point than the clause itself always makes resolution fail at
resolve time; the exception raised by the check is
CircularDependencyError carrying the phase message — the same exception
class as the cycle error, not a distinct PhaseOrderError. -/
theorem claim_c6_amended :
    (∀ (cd : ClauseDict) (order : List String) (x d : String),
        x ∈ clauseNames cd → d ∈ edgeTargets (lookupD cd x) →
        (lookupD cd x).lifecycle_point < (lookupD cd d).lifecycle_point →
        (∀ n ∈ clauseNames cd, n ∈ order) →
        ∃ e, construct_contract cd order initRState = .error e) ∧
      resolveContract phaseViolationDict ["B", "A"] =
        .error (.circularDependencyError (.phaseOrder "B" "A")) := by
  constructor
  · intro cd order x d hx hd hlt hord
    cases hres : construct_contract cd order initRState with
    | error e => exact ⟨e, rfl⟩
    | ok st' =>
        exfalso
        obtain ⟨hinv, _, hall⟩ :=
          construct_ok cd order initRState st' hres (inv_init cd)
        have hxadd : x ∈ st'.added := hall x (hord x hx)
        obtain ⟨_, hedge⟩ := hinv.2.2.2.1 x hxadd
        have := (hedge d hd).1
        omega
  · exact phaseViolation_eval

/-- Witness for claim C6: the general part applied to the concrete
phase-violating dictionary. -/
theorem claim_c6_amended_witness :
    ∃ e, construct_contract phaseViolationDict ["B", "A"] initRState =
      .error e := by
  refine claim_c6_amended.1 phaseViolationDict ["B", "A"] "B" "A"
    (by decide) ?_ ?_ (by decide)
  · simp +decide [phaseViolationDict, mkClause, lookupD, edgeTargets, List.find?]
  · simp +decide [phaseViolationDict, mkClause, lookupD, List.find?,
      PRE_START, POST_START]

/-! ### Claim C7: singular lifecycle points -/

theorem two_le_length_of_mem_ne {a b : String} {l : List String} (hab : a ≠ b)
    (ha : a ∈ l) (hb : b ∈ l) : 2 ≤ l.length := by
  cases l with
  | nil => simp at ha
  | cons x xs =>
      cases xs with
      | nil =>
          simp only [List.mem_singleton] at ha hb
          exact absurd (ha.trans hb.symm) hab
      | cons y ys => simp

/-- Membership in the per-phase plan for every added clause. -/
theorem mem_planAt_of_added (cd : ClauseDict) (st : RState) (hInv : Inv cd st)
    (n : String) (hn : n ∈ st.added) :
    n ∈ planAt st ((lookupD cd n).lifecycle_point) := by
  obtain ⟨_, hmap, hphase, _, _⟩ := hInv
  have hn' : n ∈ st.contract.map (fun e => e.2) := hmap ▸ hn
  obtain ⟨e, he, he2⟩ := List.mem_map.mp hn'
  unfold planAt
  refine List.mem_map.mpr ⟨e, List.mem_filter.mpr ⟨he, ?_⟩, he2⟩
  have := hphase e he
  simp [this, he2]

/-- Two clauses at lifecycle point START. -/
def duplicateStartDict : ClauseDict :=
  [mkClause "S1" START [] [], mkClause "S2" START [] []]

/-- Concrete evaluation of the duplicate-START dictionary. -/
theorem duplicateStart_eval :
    resolveContract duplicateStartDict ["S1", "S2"] =
      .error (.valueError START) := by
  simp +decide [resolveContract, normalize_clause_dict, resolveCheck,
    normalizeFold, foldClause, addIfAbsent, allRefs, clauseNames,
    duplicateStartDict, mkClause, construct_contract, add_clause, add_deps,
    lookupD, edgeTargets, display_loop, planAt, initRState, List.find?,
    SINGULAR_POINTS, PRE_START, POST_START, START, STOP, UNUSED]

/-- Claim C7, counterexample: registering a second clause at a singular
point is rejected, but with the builtin `ValueError` (`Cannot add more
than one "Start" clause`), not a `DuplicateSingularClauseError`:
validator/errors.py defines only CircularDependencyError and
ContractAttributeError. -/
theorem claim_c7_counterexample :
    resolveContract duplicateStartDict ["S1", "S2"] =
        .error (.valueError START) ∧
      ¬ ∃ m, resolveContract duplicateStartDict ["S1", "S2"] =
          .error (.circularDependencyError m) := by
  have hval := duplicateStart_eval
  refine ⟨hval, ?_⟩
  rintro ⟨m, heq⟩
  rw [hval] at heq
  simp at heq

/-- Claim C7, amended: at most one clause may occupy START and at most
one may occupy STOP — every successful resolution has at most one clause
at each singular point, and a dictionary holding two distinct clauses at
the same singular point always fails; the exception raised by the
singular check is the builtin ValueError, not a
DuplicateSingularClauseError (which the code never defines). -/
theorem claim_c7_amended :
    (∀ (cd : ClauseDict) (order : List String) (st' : RState),
        construct_contract cd order initRState = .ok st' →
        ∀ p ∈ SINGULAR_POINTS, (planAt st' p).length ≤ 1) ∧
      (∀ (cd : ClauseDict) (order : List String) (n1 n2 : String),
        n1 ∈ clauseNames cd → n2 ∈ clauseNames cd → n1 ≠ n2 →
        (lookupD cd n1).lifecycle_point ∈ SINGULAR_POINTS →
        (lookupD cd n2).lifecycle_point = (lookupD cd n1).lifecycle_point →
        (∀ n ∈ clauseNames cd, n ∈ order) →
        ∃ e, construct_contract cd order initRState = .error e) ∧
      resolveContract duplicateStartDict ["S1", "S2"] =
        .error (.valueError START) := by
  refine ⟨?_, ?_, duplicateStart_eval⟩
  · intro cd order st' hres p hp
    obtain ⟨hinv, _, _⟩ := construct_ok cd order initRState st' hres (inv_init cd)
    exact hinv.2.2.2.2 p hp
  · intro cd order n1 n2 h1 h2 hne hsing heq hord
    cases hres : construct_contract cd order initRState with
    | error e => exact ⟨e, rfl⟩
    | ok st' =>
        exfalso
        obtain ⟨hinv, _, hall⟩ :=
          construct_ok cd order initRState st' hres (inv_init cd)
        have hm1 : n1 ∈ planAt st' ((lookupD cd n1).lifecycle_point) :=
          mem_planAt_of_added cd st' hinv n1 (hall n1 (hord n1 h1))
        have hm2 : n2 ∈ planAt st' ((lookupD cd n1).lifecycle_point) := by
          have := mem_planAt_of_added cd st' hinv n2 (hall n2 (hord n2 h2))
          rwa [heq] at this
        have hlen := hinv.2.2.2.2 ((lookupD cd n1).lifecycle_point) hsing
        have := two_le_length_of_mem_ne hne hm1 hm2
        omega

/-- Witness for claim C7: the general parts applied to the concrete
duplicate-START dictionary. -/
theorem claim_c7_amended_witness :
    ∃ e, construct_contract duplicateStartDict ["S1", "S2"] initRState =
      .error e := by
  refine claim_c7_amended.2.1 duplicateStartDict ["S1", "S2"] "S1" "S2"
    (by decide) (by decide) (by decide) ?_ ?_ (by decide)
  · simp +decide [duplicateStartDict, mkClause, lookupD, List.find?,
      SINGULAR_POINTS, START, STOP]
  · simp +decide [duplicateStartDict, mkClause, lookupD, List.find?]

/-! ### Claim C4: `after` folding and execution order -/

theorem mem_addIfAbsent_self (x : String) (l : List String) :
    x ∈ addIfAbsent x l := by
  unfold addIfAbsent
  by_cases h : x ∈ l <;> simp [h]

theorem mem_addIfAbsent_of_mem {a : String} (x : String) {l : List String}
    (h : a ∈ l) : a ∈ addIfAbsent x l := by
  unfold addIfAbsent
  by_cases hx : x ∈ l <;> simp [h, hx]

theorem lookupD_mem (cd : ClauseDict) (n : String) (h : n ∈ clauseNames cd) :
    lookupD cd n ∈ cd := by
  unfold lookupD
  cases hf : cd.find? (fun c => c.name = n) with
  | none =>
      obtain ⟨c, hc, hcn⟩ := List.mem_map.mp h
      have := List.find?_eq_none.mp hf c hc
      simp [hcn] at this
  | some c => simpa using List.mem_of_find?_eq_some hf

/-- Looking a name up in a name-preserving-mapped dictionary looks it up
in the original dictionary and then maps. -/
theorem lookupD_map (g : Clause → Clause) (hg : ∀ c, (g c).name = c.name)
    (cd : ClauseDict) (n : String) (h : n ∈ clauseNames cd) :
    lookupD (cd.map g) n = g (lookupD cd n) := by
  unfold lookupD
  rw [List.find?_map]
  have hpred : ((fun c : Clause => decide (c.name = n)) ∘ g) =
      fun c : Clause => decide (c.name = n) := by
    funext c
    simp [Function.comp, hg]
  rw [hpred]
  cases hf : cd.find? (fun c => c.name = n) with
  | none =>
      obtain ⟨c, hc, hcn⟩ := List.mem_map.mp h
      have := List.find?_eq_none.mp hf c hc
      simp [hcn] at this
  | some c => simp

theorem foldClause_name (z c : Clause) :
    ((fun c : Clause =>
      let c1 :=
        if c.name ∈ z.dependents then
          { c with dependencies := addIfAbsent z.name c.dependencies }
        else c
      if c.name ∈ z.after then
        { c1 with before := addIfAbsent z.name c1.before }
      else c1) c).name = c.name := by
  by_cases h1 : c.name ∈ z.dependents <;> by_cases h2 : c.name ∈ z.after <;>
    simp [h1, h2]

theorem foldClause_names (z : Clause) (cd : ClauseDict) :
    clauseNames (foldClause z cd) = clauseNames cd := by
  unfold clauseNames foldClause
  rw [List.map_map]
  exact List.map_congr_left (fun c _ => foldClause_name z c)

/-- One folding step can only grow a clause's `before` set, and does add
`z.name` to the `before` set of every clause named in `z.after`. -/
theorem foldClause_before (z : Clause) (acc : ClauseDict) (y b : String)
    (hy : y ∈ clauseNames acc)
    (h : b ∈ (lookupD acc y).before ∨ (b = z.name ∧ y ∈ z.after)) :
    b ∈ (lookupD (foldClause z acc) y).before := by
  unfold foldClause
  rw [lookupD_map _ (foldClause_name z) acc y hy]
  have hname : (lookupD acc y).name = y := lookupD_name acc y hy
  by_cases h2 : (lookupD acc y).name ∈ z.after
  · by_cases h1 : (lookupD acc y).name ∈ z.dependents <;> simp [h1, h2] <;>
      rcases h with hb | ⟨rfl, hafter⟩ <;>
        first
          | exact mem_addIfAbsent_of_mem _ hb
          | exact mem_addIfAbsent_self _ _
  · rcases h with hb | ⟨rfl, hafter⟩
    · by_cases h1 : (lookupD acc y).name ∈ z.dependents <;> simp [h1, h2] <;>
        exact hb
    · rw [hname] at h2
      exact absurd hafter h2

theorem foldl_fold_names : ∀ (xs : List Clause) (acc : ClauseDict),
    clauseNames (List.foldl (fun a x => foldClause x a) acc xs) =
      clauseNames acc := by
  intro xs
  induction xs with
  | nil => intro acc; rfl
  | cons z zs ih =>
      intro acc
      simp only [List.foldl_cons]
      rw [ih, foldClause_names]

theorem foldl_before_mem : ∀ (xs : List Clause) (acc : ClauseDict) (b y : String),
    y ∈ clauseNames acc →
    (b ∈ (lookupD acc y).before ∨ ∃ x ∈ xs, b = x.name ∧ y ∈ x.after) →
    b ∈ (lookupD (List.foldl (fun a x => foldClause x a) acc xs) y).before := by
  intro xs
  induction xs with
  | nil =>
      intro acc b y hy h
      rcases h with h | ⟨x, hx, _⟩
      · exact h
      · simp at hx
  | cons z zs ih =>
      intro acc b y hy h
      simp only [List.foldl_cons]
      have hy' : y ∈ clauseNames (foldClause z acc) := by
        rw [foldClause_names]; exact hy
      rcases h with h | ⟨x, hx, hbx, hafter⟩
      · exact ih _ b y hy' (Or.inl (foldClause_before z acc y b hy (Or.inl h)))
      · rcases List.mem_cons.mp hx with hxz | hx
        · exact ih _ b y hy'
            (Or.inl (foldClause_before z acc y b hy
              (Or.inr ⟨hxz ▸ hbx, hxz ▸ hafter⟩)))
        · exact ih _ b y hy' (Or.inr ⟨x, hx, hbx, hafter⟩)

/-- The inverse-edge folding puts `x.name` into the `before` set of every
clause named in `x.after`. -/
theorem normalizeFold_after_before (cd : ClauseDict) (x : Clause) (y : String)
    (hx : x ∈ cd) (hy : y ∈ clauseNames cd) (hafter : y ∈ x.after) :
    x.name ∈ (lookupD (normalizeFold cd) y).before := by
  unfold normalizeFold
  exact foldl_before_mem cd cd x.name y hy (Or.inr ⟨x, hx, rfl, hafter⟩)

/-- The full execution sequence: the per-phase plans concatenated in
timeline order (`for point in _TIMELINE: ... run(suite, point)`). -/
def execList (st : RState) : List String :=
  (TIMELINE.map (fun p => planAt st p)).flatten

theorem chunk_sublist_flatten (f : Nat → List String) :
    ∀ (ps : List Nat) (p : Nat), p ∈ ps →
      List.Sublist (f p) ((ps.map f).flatten) := by
  intro ps
  induction ps with
  | nil => intro p hp; simp at hp
  | cons x xs ih =>
      intro p hp
      simp only [List.map_cons, List.flatten_cons]
      rcases List.mem_cons.mp hp with rfl | hp
      · exact List.sublist_append_left _ _
      · exact (ih p hp).trans (List.sublist_append_right _ _)

theorem pair_sublist_flatten (f : Nat → List String) :
    ∀ (ps : List Nat) (p q : Nat) (a b : String), List.Sublist [p, q] ps →
      a ∈ f p → b ∈ f q → List.Sublist [a, b] ((ps.map f).flatten) := by
  intro ps
  induction ps with
  | nil =>
      intro p q a b h
      simp at h
  | cons x xs ih =>
      intro p q a b h ha hb
      simp only [List.map_cons, List.flatten_cons]
      cases h with
      | cons _ hsub =>
          exact (ih p q a b hsub ha hb).trans (List.sublist_append_right _ _)
      | cons₂ _ hsub =>
          have hq : q ∈ xs := List.singleton_sublist.mp hsub
          have hb2 : List.Sublist [b] ((xs.map f).flatten) :=
            List.singleton_sublist.mpr
              (List.mem_flatten.mpr ⟨f q, List.mem_map.mpr ⟨q, hq, rfl⟩, hb⟩)
          have ha2 : List.Sublist [a] (f x) := List.singleton_sublist.mpr ha
          simpa using List.Sublist.append ha2 hb2

theorem timeline_pair {p q : Nat} (hp : p ∈ TIMELINE) (hq : q ∈ TIMELINE)
    (hlt : p < q) : List.Sublist [p, q] TIMELINE := by
  revert hlt
  simp only [TIMELINE, PRE_START, START, POST_START, STOP, POST_STOP] at hp hq ⊢
  fin_cases hp <;> fin_cases hq <;> decide

/-- A prerequisite edge of a successfully constructed contract is always
executed before its dependent clause. -/
theorem edge_scheduled_before (cd : ClauseDict) (order : List String)
    (st' : RState) (n d : String)
    (hres : construct_contract cd order initRState = .ok st')
    (hwf : ∀ c ∈ cd, c.lifecycle_point ∈ TIMELINE)
    (hn : n ∈ st'.added) (hd : d ∈ edgeTargets (lookupD cd n)) :
    List.Sublist [d, n] (execList st') := by
  obtain ⟨hinv, _, _⟩ := construct_ok cd order initRState st' hres (inv_init cd)
  obtain ⟨hnames, hedge⟩ := hinv.2.2.2.1 n hn
  obtain ⟨hple, hdadd, _, hsame⟩ := hedge d hd
  have hdnames : d ∈ clauseNames cd := (hinv.2.2.2.1 d hdadd).1
  have hpn : (lookupD cd n).lifecycle_point ∈ TIMELINE :=
    hwf _ (lookupD_mem cd n hnames)
  have hpd : (lookupD cd d).lifecycle_point ∈ TIMELINE :=
    hwf _ (lookupD_mem cd d hdnames)
  rcases lt_or_eq_of_le hple with hlt | heq
  · have hdm : d ∈ planAt st' ((lookupD cd d).lifecycle_point) :=
      mem_planAt_of_added cd st' hinv d hdadd
    have hnm : n ∈ planAt st' ((lookupD cd n).lifecycle_point) :=
      mem_planAt_of_added cd st' hinv n hn
    exact pair_sublist_flatten _ TIMELINE _ _ d n (timeline_pair hpd hpn hlt)
      hdm hnm
  · exact (hsame heq).trans (chunk_sublist_flatten _ TIMELINE _ hpn)

/-- Scenario D of the specification: clause A at PRE_START, clause B at
POST_START depending on A, clause C at POST_START with `after = ` set to B. -/
def scenarioD : ClauseDict :=
  [mkClause "A" PRE_START [] [],
   mkClause "B" POST_START ["A"] [],
   mkClause "C" POST_START [] ["B"]]

/-- The state scenario D resolves to: C is scheduled before B. -/
def scenarioDResult : RState :=
  { added := ["A", "C", "B"],
    contract := [(PRE_START, "A"), (POST_START, "C"), (POST_START, "B")] }

/-- Claim C4, counterexample: scenario D resolves with POST_START order
C before B — not B before C as the claim states. -/
theorem claim_c4_counterexample :
    resolveContract scenarioD ["A", "B", "C"] = .ok scenarioDResult ∧
      planAt scenarioDResult POST_START ≠ ["B", "C"] ∧
      ¬ List.Sublist ["B", "C"] (execList scenarioDResult) := by
  refine ⟨?_, by decide, by decide⟩
  simp +decide [resolveContract, normalize_clause_dict, resolveCheck,
    normalizeFold, foldClause, addIfAbsent, allRefs, clauseNames,
    scenarioD, mkClause, construct_contract, add_clause, add_deps,
    lookupD, edgeTargets, display_loop, planAt, initRState, List.find?,
    SINGULAR_POINTS, PRE_START, POST_START, START, STOP, UNUSED,
    scenarioDResult]

/-- Claim C4, amended: the inverse-edge folding adds X to Y's `before`
set when X declares `after = ` containing Y, and X is then scheduled
BEFORE Y (members of a clause's `before` set are evaluated before it);
in scenario D the execution order is A, then C, then B, under every
dictionary iteration order. -/
theorem claim_c4_amended :
    (∀ (cd : ClauseDict) (x : Clause) (y : String),
        x ∈ cd → y ∈ clauseNames cd → y ∈ x.after →
        x.name ∈ (lookupD (normalizeFold cd) y).before) ∧
      (∀ (cd : ClauseDict) (order : List String) (st' : RState) (n d : String),
        construct_contract cd order initRState = .ok st' →
        (∀ c ∈ cd, c.lifecycle_point ∈ TIMELINE) →
        n ∈ st'.added → d ∈ edgeTargets (lookupD cd n) →
        List.Sublist [d, n] (execList st')) ∧
      (∀ order ∈ [["A", "B", "C"], ["A", "C", "B"], ["B", "A", "C"],
          ["B", "C", "A"], ["C", "A", "B"], ["C", "B", "A"]],
        (resolveContract scenarioD order).map
            (fun st => (planAt st PRE_START, planAt st POST_START)) =
          .ok (["A"], ["C", "B"])) ∧
      planAt scenarioDResult PRE_START = ["A"] ∧
      planAt scenarioDResult POST_START = ["C", "B"] ∧
      List.Sublist ["C", "B"] (execList scenarioDResult) := by
  refine ⟨normalizeFold_after_before,
    fun cd order st' n d hres hwf hn hd =>
      edge_scheduled_before cd order st' n d hres hwf hn hd,
    ?_, by decide, by decide, by decide⟩
  intro order h
  fin_cases h <;>
    simp +decide [Except.map, resolveContract, normalize_clause_dict, resolveCheck,
      normalizeFold, foldClause, addIfAbsent, allRefs, clauseNames,
      scenarioD, mkClause, construct_contract, add_clause, add_deps,
      lookupD, edgeTargets, display_loop, planAt, initRState, List.find?,
      SINGULAR_POINTS, PRE_START, POST_START, START, STOP, UNUSED,
      scenarioDResult]

/-- Witness for claim C4: the folding part applied to scenario D's clause
C, and the scenario itself. -/
theorem claim_c4_amended_witness :
    "C" ∈ (lookupD (normalizeFold scenarioD) "B").before ∧
      (resolveContract scenarioD ["A", "B", "C"]).map
          (fun st => (planAt st PRE_START, planAt st POST_START)) =
        .ok (["A"], ["C", "B"]) := by
  constructor
  · exact claim_c4_amended.1 scenarioD (mkClause "C" POST_START [] ["B"]) "B"
      (by decide) (by decide) (by decide)
  · exact claim_c4_amended.2.2.1 ["A", "B", "C"] (by decide)

/-! ### Container and sandbox model
(sandbox/container.py and sandbox/container_sandbox.py)

The docker daemon is modelled as a list of containers with running flags
and a fresh-id counter.  A `ContainerHandle` is the `Container` object:
it stores `_container_id`, nil until creation succeeds and cleared by
`remove()`. -/

/-- A container as the daemon sees it. -/
structure DockerContainer where
  id : Nat
  running : Bool
deriving DecidableEq, Repr

/-- The daemon state. -/
structure DockerState where
  containers : List DockerContainer
  nextId : Nat
deriving DecidableEq, Repr

/-- A `Container` object: the stored `_container_id`. -/
structure ContainerHandle where
  container_id : Option Nat
deriving DecidableEq, Repr

def emptyDocker : DockerState := { containers := [], nextId := 0 }

/-- `docker.Client.create_container`: allocate a fresh container, not yet
running, and return its id. -/
def dockerCreate (dk : DockerState) : DockerState × Nat :=
  ({ containers := dk.containers ++ [{ id := dk.nextId, running := false }],
     nextId := dk.nextId + 1 }, dk.nextId)

/-- Set the running flag of the container with the given id. -/
def dockerSetRunning (dk : DockerState) (i : Nat) (b : Bool) : DockerState :=
  { dk with containers :=
      dk.containers.map (fun c => if c.id = i then { c with running := b } else c) }

/-- `docker.Client.remove_container`: the container disappears. -/
def dockerRemove (dk : DockerState) (i : Nat) : DockerState :=
  { dk with containers := dk.containers.filter (fun c => c.id ≠ i) }

/-- What `docker.Client.inspect_container` reports as the running state. -/
def dockerRunning (dk : DockerState) (i : Nat) : Bool :=
  ((dk.containers.find? (fun c => c.id = i)).map (fun c => c.running)).getD false

/-- `Container.running()` (container.py lines 176-185): false when the id
is nil, otherwise ask the daemon. -/
def containerRunning (h : ContainerHandle) (dk : DockerState) : Bool :=
  match h.container_id with
  | some i => dockerRunning dk i
  | none => false

/-- `Container.kill()` (container.py lines 97-103): silently a no-op when
the id is cleared; the id is NOT cleared by a kill. -/
def containerKill (h : ContainerHandle) (dk : DockerState) :
    ContainerHandle × DockerState :=
  match h.container_id with
  | some i => (h, dockerSetRunning dk i false)
  | none => (h, dk)

/-- `Container.remove()` (container.py lines 105-112): silently a no-op
when the id is cleared; otherwise remove the container and clear the id. -/
def containerRemove (h : ContainerHandle) (dk : DockerState) :
    ContainerHandle × DockerState :=
  match h.container_id with
  | some i => ({ container_id := none }, dockerRemove dk i)
  | none => (h, dk)

/-- `Container.kill()` with the docker client's possible failure made
explicit: killing an id unknown to the daemon raises. -/
def containerKillE (h : ContainerHandle) (dk : DockerState) :
    Except PyError (ContainerHandle × DockerState) :=
  match h.container_id with
  | none => .ok (h, dk)
  | some i =>
      match dk.containers.find? (fun c => c.id = i) with
      | none => .error (.appstartAbort "no such container")
      | some _ => .ok (h, dockerSetRunning dk i false)

/-- `Container.remove()` with the docker client's possible failure made
explicit: removing an unknown or still-running container raises. -/
def containerRemoveE (h : ContainerHandle) (dk : DockerState) :
    Except PyError (ContainerHandle × DockerState) :=
  match h.container_id with
  | none => .ok (h, dk)
  | some i =>
      match dk.containers.find? (fun c => c.id = i) with
      | none => .error (.appstartAbort "no such container")
      | some c =>
          if c.running then .error (.appstartAbort "container is running")
          else .ok ({ container_id := none }, dockerRemove dk i)

/-- The mutable state of a ContainerSandbox: the daemon plus the three
container attributes, all `None` until constructed. -/
structure SbxState where
  docker : DockerState
  devappserver_container : Option ContainerHandle
  app_container : Option ContainerHandle
  pinger_container : Option ContainerHandle
deriving DecidableEq, Repr

def initSbx : SbxState :=
  { docker := emptyDocker, devappserver_container := none,
    app_container := none, pinger_container := none }

/-- The environment a sandbox start runs against: which docker operations
succeed, how the pinger answers at each attempt, whether the devappserver
container is still alive at each attempt, and the timeout. -/
structure SbxEnv where
  run_devappserver : Bool
  build_das_image_ok : Bool
  create_das_ok : Bool
  start_das_ok : Bool
  build_app_image_ok : Bool
  create_app_ok : Bool
  start_app_ok : Bool
  create_pinger_ok : Bool
  start_pinger_ok : Bool
  ping_ok : Nat → Bool
  das_alive : Nat → Bool
  timeout : Nat

/-- The daemon state after the devappserver container dies externally. -/
def dasDead (das : Option ContainerHandle) (dk : DockerState) : DockerState :=
  match das with
  | some h => (containerKill h dk).2
  | none => dk

/-- `ContainerSandbox.wait_for_start` (container_sandbox.py lines
376-424): once a second, fail when the attempt count exceeds the timeout,
fail when devappserver has died (dumping its logs), stop when the pinger
reaches the application.  `fuel = timeout + 1 - attempt` counts the
remaining allowed attempts, so fuel running out is exactly
`attempt > self.timeout`. -/
def wait_loop (env : SbxEnv) (das : Option ContainerHandle) :
    DockerState → Nat → Nat → DockerState × Option PyError
  | dk, 0, _ => (dk, some (.appstartAbort "The application server timed out."))
  | dk, fuel + 1, attempt =>
      if env.run_devappserver && !(env.das_alive attempt) then
        (dasDead das dk, some (.appstartAbort "Devappserver stopped prematurely"))
      else if env.ping_ok attempt then (dk, none)
      else wait_loop env das dk fuel (attempt + 1)

/-- The pinger steps of `create_and_run_containers` (container_sandbox.py
lines 341-353), then `wait_for_start`. -/
def pinger_part (env : SbxEnv) (st : SbxState) : SbxState × Option PyError :=
  if env.create_pinger_ok then
    let dk1 := (dockerCreate st.docker).1
    let i := (dockerCreate st.docker).2
    let ph : ContainerHandle := { container_id := some i }
    let st1 := { st with docker := dk1, pinger_container := some ph }
    if env.start_pinger_ok then
      let st2 := { st1 with docker := dockerSetRunning st1.docker i true }
      let res := wait_loop env st2.devappserver_container st2.docker env.timeout 1
      ({ st2 with docker := res.1 }, res.2)
    else (st1, some (.appstartAbort "Docker error"))
  else
    let ph0 : ContainerHandle := { container_id := none }
    ({ st with pinger_container := some ph0 },
      some (.appstartAbort "Could not create container"))

/-- The application-container steps of `create_and_run_containers`
(container_sandbox.py lines 277-339): build or reuse the image, create
the container, start it. -/
def app_part (env : SbxEnv) (st : SbxState) : SbxState × Option PyError :=
  if !env.build_app_image_ok then (st, some (.appstartAbort "Build failed"))
  else if env.create_app_ok then
    let dk1 := (dockerCreate st.docker).1
    let i := (dockerCreate st.docker).2
    let ah : ContainerHandle := { container_id := some i }
    let st1 := { st with docker := dk1, app_container := some ah }
    if env.start_app_ok then
      pinger_part env { st1 with docker := dockerSetRunning st1.docker i true }
    else (st1, some (.appstartAbort "Docker error"))
  else
    let ah0 : ContainerHandle := { container_id := none }
    ({ st with app_container := some ah0 },
      some (.appstartAbort "Could not create container"))

/-- `ContainerSandbox.create_and_run_containers` (container_sandbox.py
lines 222-353): optionally build, create and start the devappserver
container, then the application container, then the pinger, then wait
for startup. -/
def create_and_run_containers (env : SbxEnv) (st : SbxState) :
    SbxState × Option PyError :=
  if env.run_devappserver then
    if !env.build_das_image_ok then (st, some (.appstartAbort "Build failed"))
    else if env.create_das_ok then
      let dk1 := (dockerCreate st.docker).1
      let i := (dockerCreate st.docker).2
      let dh : ContainerHandle := { container_id := some i }
      let st1 := { st with docker := dk1, devappserver_container := some dh }
      if env.start_das_ok then
        app_part env { st1 with docker := dockerSetRunning st1.docker i true }
      else (st1, some (.appstartAbort "Docker error"))
    else
      let dh0 : ContainerHandle := { container_id := none }
      ({ st with devappserver_container := some dh0 },
        some (.appstartAbort "Could not create container"))
  else app_part env st

/-- One step of `stop_and_remove_containers` (container_sandbox.py lines
362-374): `if cont and cont.running(): cont.kill(); cont.remove()`. -/
def stop_one (dk : DockerState) (h? : Option ContainerHandle) :
    DockerState × Option ContainerHandle :=
  match h? with
  | none => (dk, none)
  | some h =>
      if containerRunning h dk then
        let k := containerKill h dk
        let r := containerRemove k.1 k.2
        (r.2, some r.1)
      else (dk, some h)

/-- `ContainerSandbox.stop` / `stop_and_remove_containers`: process the
application, devappserver and pinger containers in that order. -/
def sandbox_stop (st : SbxState) : SbxState :=
  let s1 := stop_one st.docker st.app_container
  let s2 := stop_one s1.1 st.devappserver_container
  let s3 := stop_one s2.1 st.pinger_container
  { docker := s3.1, app_container := s1.2, devappserver_container := s2.2,
    pinger_container := s3.2 }

/-- `ContainerSandbox.start` (container_sandbox.py lines 214-220): run
`create_and_run_containers`; on ANY exception run `stop()` and re-raise. -/
def sandbox_start (env : SbxEnv) (st : SbxState) : SbxState × Option PyError :=
  match create_and_run_containers env st with
  | (st1, none) => (st1, none)
  | (st1, some e) => (sandbox_stop st1, some e)

/-! ### Claim C5: guaranteed teardown on any start failure -/

/-- Daemon well-formedness: container ids are distinct and below the
fresh-id counter. -/
def DockerWF (dk : DockerState) : Prop :=
  (dk.containers.map (fun c => c.id)).Nodup ∧
    ∀ c ∈ dk.containers, c.id < dk.nextId

theorem dockerWF_empty : DockerWF emptyDocker := by
  constructor <;> simp [emptyDocker]

theorem dockerWF_create (dk : DockerState) (h : DockerWF dk) :
    DockerWF (dockerCreate dk).1 := by
  obtain ⟨hnd, hlt⟩ := h
  constructor
  · simp only [dockerCreate, List.map_append, List.map_cons, List.map_nil]
    rw [List.nodup_append]
    refine ⟨hnd, List.nodup_singleton _, ?_⟩
    intro x hx
    obtain ⟨c, hc, hce⟩ := List.mem_map.mp hx
    simp only [List.mem_singleton]
    intro hx1
    rw [hx1] at hce
    exact absurd (hce ▸ hlt c hc) (lt_irrefl _)
  · intro c hc
    simp only [dockerCreate, List.mem_append, List.mem_singleton] at hc
    rcases hc with hc | rfl
    · exact lt_trans (hlt c hc) (Nat.lt_succ_self _)
    · exact Nat.lt_succ_self _

theorem setRunning_ids (dk : DockerState) (i : Nat) (b : Bool) :
    (dockerSetRunning dk i b).containers.map (fun c => c.id) =
      dk.containers.map (fun c => c.id) := by
  simp only [dockerSetRunning, List.map_map]
  exact List.map_congr_left (fun c _ => by
    by_cases h : c.id = i <;> simp [h])

theorem dockerWF_setRunning (dk : DockerState) (i : Nat) (b : Bool)
    (h : DockerWF dk) : DockerWF (dockerSetRunning dk i b) := by
  obtain ⟨hnd, hlt⟩ := h
  constructor
  · rw [setRunning_ids]; exact hnd
  · intro c hc
    simp only [dockerSetRunning, List.mem_map] at hc
    obtain ⟨c0, hc0, hce⟩ := hc
    have := hlt c0 hc0
    by_cases h : c0.id = i <;> simp [h] at hce <;> rw [← hce] <;> simpa [h]

/-- With distinct ids, a container whose id the daemon reports as not
running is itself not running. -/
theorem running_false_of_dockerRunning_false (dk : DockerState)
    (hwf : DockerWF dk) (i : Nat) (hrun : dockerRunning dk i = false) :
    ∀ c ∈ dk.containers, c.id = i → c.running = false := by
  intro c hc hci
  unfold dockerRunning at hrun
  cases hf : dk.containers.find? (fun c => c.id = i) with
  | none =>
      have := List.find?_eq_none.mp hf c hc
      simp [hci] at this
  | some c' =>
      rw [hf] at hrun
      simp at hrun
      have hc'mem := List.mem_of_find?_eq_some hf
      have hc'id : c'.id = i := by simpa using List.find?_some hf
      have hceq : c = c' :=
        List.inj_on_of_nodup_map hwf.1 hc hc'mem (by rw [hci, hc'id])
      rw [hceq]
      exact hrun

/-- Whether an optional handle currently stores the given container id. -/
def refBy (h? : Option ContainerHandle) (i : Nat) : Prop :=
  ∃ h, h? = some h ∧ h.container_id = some i

/-- Every daemon container is referenced by one of the sandbox's three
container attributes: nothing is created without a handle able to clean
it up. -/
def SbxRef (st : SbxState) : Prop :=
  ∀ c ∈ st.docker.containers,
    refBy st.app_container c.id ∨ refBy st.devappserver_container c.id ∨
      refBy st.pinger_container c.id

/-- The wait loop only toggles running flags: container ids and the
fresh-id counter are untouched. -/
theorem wait_loop_docker (env : SbxEnv) (das : Option ContainerHandle) :
    ∀ (fuel attempt : Nat) (dk : DockerState),
      (wait_loop env das dk fuel attempt).1.containers.map (fun c => c.id) =
          dk.containers.map (fun c => c.id) ∧
        (wait_loop env das dk fuel attempt).1.nextId = dk.nextId := by
  intro fuel
  induction fuel with
  | zero => intro attempt dk; exact ⟨rfl, rfl⟩
  | succ n ih =>
      intro attempt dk
      simp only [wait_loop]
      cases h1 : env.run_devappserver && !(env.das_alive attempt) with
      | true =>
          simp only [h1, if_true]
          unfold dasDead containerKill
          cases das with
          | none => exact ⟨rfl, rfl⟩
          | some h =>
              cases hcid : h.container_id with
              | none => simp [hcid]
              | some j =>
                  simp only [hcid]
                  exact ⟨setRunning_ids dk j false, rfl⟩
      | false =>
          simp only [h1, Bool.false_eq_true, if_false]
          cases h2 : env.ping_ok attempt with
          | true => simp [h2]
          | false =>
              simp only [h2, Bool.false_eq_true, if_false]
              exact ih (attempt + 1) dk

/-- What one teardown step guarantees. -/
theorem stop_one_spec (dk : DockerState) (h? : Option ContainerHandle) :
    (∀ c' ∈ (stop_one dk h?).1.containers,
        c' ∈ dk.containers ∨ c'.running = false) ∧
      (∀ c' ∈ (stop_one dk h?).1.containers,
        ∃ c ∈ dk.containers, c'.id = c.id) ∧
      (DockerWF dk → DockerWF (stop_one dk h?).1) ∧
      (DockerWF dk → ∀ i, refBy h? i →
        ∀ c' ∈ (stop_one dk h?).1.containers, c'.id = i →
          c'.running = false) := by
  cases h? with
  | none =>
      refine ⟨fun c' hc' => Or.inl hc', fun c' hc' => ⟨c', hc', rfl⟩,
        fun h => h, ?_⟩
      rintro _ i ⟨h, hh, _⟩ _ _ _
      simp at hh
  | some h =>
      by_cases hr : containerRunning h dk
      · cases hid : h.container_id with
        | none => simp [containerRunning, hid] at hr
        | some i =>
            have hkill : containerKill h dk = (h, dockerSetRunning dk i false) := by
              simp [containerKill, hid]
            have hrem : containerRemove h (dockerSetRunning dk i false) =
                ({ container_id := none },
                  dockerRemove (dockerSetRunning dk i false) i) := by
              simp [containerRemove, hid]
            have hres : (stop_one dk (some h)).1 =
                dockerRemove (dockerSetRunning dk i false) i := by
              simp [stop_one, hr, hkill, hrem]
            rw [hres]
            have hmem : ∀ c' ∈ (dockerRemove (dockerSetRunning dk i false) i).containers,
                c' ∈ dk.containers ∨ c'.running = false := by
              intro c' hc'
              simp only [dockerRemove, List.mem_filter] at hc'
              obtain ⟨hc1, _⟩ := hc'
              simp only [dockerSetRunning, List.mem_map] at hc1
              obtain ⟨c0, hc0, hce⟩ := hc1
              by_cases hci : c0.id = i
              · simp [hci] at hce
                exact Or.inr (by rw [← hce])
              · simp [hci] at hce
                exact Or.inl (hce ▸ hc0)
            have hids : ∀ c' ∈ (dockerRemove (dockerSetRunning dk i false) i).containers,
                ∃ c ∈ dk.containers, c'.id = c.id := by
              intro c' hc'
              simp only [dockerRemove, List.mem_filter] at hc'
              obtain ⟨hc1, _⟩ := hc'
              simp only [dockerSetRunning, List.mem_map] at hc1
              obtain ⟨c0, hc0, hce⟩ := hc1
              by_cases hci : c0.id = i
              · simp [hci] at hce
                exact ⟨c0, hc0, by rw [← hce]; exact hci.symm⟩
              · simp [hci] at hce
                exact ⟨c0, hc0, by rw [← hce]⟩
            refine ⟨hmem, hids, ?_, ?_⟩
            · intro hwf
              obtain ⟨hnd, hlt⟩ := dockerWF_setRunning dk i false hwf
              constructor
              · refine List.Nodup.sublist ?_ hnd
                exact List.Sublist.map _ (List.filter_sublist _)
              · intro c hc
                simp only [dockerRemove, List.mem_filter] at hc
                exact hlt c hc.1
            · rintro _ j ⟨h', hh', hcid⟩ c' hc' hcj
              obtain rfl : h' = h := by simpa using hh'.symm
              have hij : j = i := by
                rw [hid] at hcid
                simpa using hcid.symm
              subst hij
              simp only [dockerRemove, List.mem_filter] at hc'
              obtain ⟨_, hne⟩ := hc'
              rw [hcj] at hne
              simp at hne
      · have hres : stop_one dk (some h) = (dk, some h) := by
          simp [stop_one, hr]
        rw [hres]
        refine ⟨fun c' hc' => Or.inl hc', fun c' hc' => ⟨c', hc', rfl⟩,
          fun hwf => hwf, ?_⟩
        rintro hwf j ⟨h', hh', hcid⟩ c' hc' hcj
        obtain rfl : h' = h := by simpa using hh'.symm
        have : dockerRunning dk j = false := by
          unfold containerRunning at hr
          rw [hcid] at hr
          simpa using hr
        exact running_false_of_dockerRunning_false dk hwf j this c' hc' hcj

theorem dockerWF_of_ids (dk dk' : DockerState)
    (hids : dk'.containers.map (fun c => c.id) =
      dk.containers.map (fun c => c.id))
    (hnext : dk'.nextId = dk.nextId) (h : DockerWF dk) : DockerWF dk' := by
  constructor
  · rw [hids]; exact h.1
  · intro c hc
    have hmem : c.id ∈ dk.containers.map (fun c => c.id) := by
      rw [← hids]; exact List.mem_map.mpr ⟨c, hc, rfl⟩
    obtain ⟨c0, hc0, hce⟩ := List.mem_map.mp hmem
    rw [hnext, ← hce]
    exact h.2 c0 hc0

theorem sbxRef_of_ids (st st' : SbxState)
    (hids : st'.docker.containers.map (fun c => c.id) =
      st.docker.containers.map (fun c => c.id))
    (ha : st'.app_container = st.app_container)
    (hd : st'.devappserver_container = st.devappserver_container)
    (hp : st'.pinger_container = st.pinger_container)
    (h : SbxRef st) : SbxRef st' := by
  intro c hc
  have hmem : c.id ∈ st.docker.containers.map (fun c => c.id) := by
    rw [← hids]; exact List.mem_map.mpr ⟨c, hc, rfl⟩
  obtain ⟨c0, hc0, hce⟩ := List.mem_map.mp hmem
  rw [ha, hd, hp, ← hce]
  exact h c0 hc0

/-- Everything the sandbox can reach after teardown is dead. -/
theorem stop_clears (st : SbxState) (hwf : DockerWF st.docker)
    (href : SbxRef st) :
    ∀ c ∈ (sandbox_stop st).docker.containers, c.running = false := by
  intro c hc
  obtain ⟨mem1, ids1, wf1, dead1⟩ := stop_one_spec st.docker st.app_container
  obtain ⟨mem2, ids2, wf2, dead2⟩ :=
    stop_one_spec (stop_one st.docker st.app_container).1
      st.devappserver_container
  obtain ⟨mem3, ids3, wf3, dead3⟩ :=
    stop_one_spec (stop_one (stop_one st.docker st.app_container).1
      st.devappserver_container).1 st.pinger_container
  have hc3 : c ∈ (stop_one (stop_one (stop_one st.docker st.app_container).1
      st.devappserver_container).1 st.pinger_container).1.containers := hc
  obtain ⟨c2, hc2, hcid2⟩ := ids3 c hc3
  obtain ⟨c1, hc1, hcid1⟩ := ids2 c2 hc2
  obtain ⟨c0, hc0, hcid0⟩ := ids1 c1 hc1
  have hcc0 : c.id = c0.id := by rw [hcid2, hcid1, hcid0]
  rcases href c0 hc0 with hra | hrd | hrp
  · -- the application handle owns this id; step 1 killed it
    have hdead : ∀ c' ∈ (stop_one st.docker st.app_container).1.containers,
        c'.id = c0.id → c'.running = false := dead1 hwf c0.id hra
    rcases mem3 c hc3 with h3 | h3
    · rcases mem2 c h3 with h2 | h2
      · exact hdead c h2 hcc0
      · exact h2
    · exact h3
  · have hdead := dead2 (wf1 hwf) c0.id hrd
    rcases mem3 c hc3 with h3 | h3
    · exact hdead c h3 hcc0
    · exact h3
  · exact dead3 (wf2 (wf1 hwf)) c0.id hrp c hc3 hcc0

theorem pinger_part_spec (env : SbxEnv) (st : SbxState)
    (hwf : DockerWF st.docker) (href : SbxRef st)
    (hp : st.pinger_container = none) :
    DockerWF (pinger_part env st).1.docker ∧ SbxRef (pinger_part env st).1 := by
  unfold pinger_part
  cases hcp : env.create_pinger_ok with
  | false =>
      simp only [hcp, Bool.false_eq_true, if_false]
      refine ⟨hwf, ?_⟩
      intro c hc
      rcases href c hc with h | h | h
      · exact Or.inl h
      · exact Or.inr (Or.inl h)
      · rw [hp] at h
        obtain ⟨h', hh', _⟩ := h
        simp at hh'
  | true =>
      simp only [hcp, if_true]
      have hwf1 : DockerWF (dockerCreate st.docker).1 := dockerWF_create _ hwf
      have href1 : SbxRef { st with docker := (dockerCreate st.docker).1, pinger_container := some ⟨some (dockerCreate st.docker).2⟩ } := by
        intro c hc
        simp only [dockerCreate, List.mem_append, List.mem_singleton] at hc
        rcases hc with hc | rfl
        · rcases href c hc with h | h | h
          · exact Or.inl h
          · exact Or.inr (Or.inl h)
          · rw [hp] at h
            obtain ⟨h', hh', _⟩ := h
            simp at hh'
        · exact Or.inr (Or.inr ⟨_, rfl, rfl⟩)
      cases hsp : env.start_pinger_ok with
      | false =>
          simp only [hsp, Bool.false_eq_true, if_false]
          exact ⟨hwf1, href1⟩
      | true =>
          simp only [hsp, if_true]
          have hwf2 := dockerWF_setRunning (dockerCreate st.docker).1
            (dockerCreate st.docker).2 true hwf1
          obtain ⟨hwids, hwnext⟩ := wait_loop_docker env
            st.devappserver_container env.timeout 1
            (dockerSetRunning (dockerCreate st.docker).1
              (dockerCreate st.docker).2 true)
          refine ⟨dockerWF_of_ids _ _ hwids hwnext hwf2, ?_⟩
          refine sbxRef_of_ids { st with docker := (dockerCreate st.docker).1, pinger_container := some ⟨some (dockerCreate st.docker).2⟩ } _ ?_ rfl rfl rfl href1
          exact hwids.trans (setRunning_ids _ _ _)

theorem app_part_spec (env : SbxEnv) (st : SbxState)
    (hwf : DockerWF st.docker) (href : SbxRef st)
    (ha : st.app_container = none) (hp : st.pinger_container = none) :
    DockerWF (app_part env st).1.docker ∧ SbxRef (app_part env st).1 := by
  unfold app_part
  cases hb : env.build_app_image_ok with
  | false => simpa [hb] using ⟨hwf, href⟩
  | true =>
      simp only [hb, Bool.not_true, Bool.false_eq_true, if_false]
      cases hca : env.create_app_ok with
      | false =>
          simp only [hca, Bool.false_eq_true, if_false]
          refine ⟨hwf, ?_⟩
          intro c hc
          rcases href c hc with h | h | h
          · rw [ha] at h
            obtain ⟨h', hh', _⟩ := h
            simp at hh'
          · exact Or.inr (Or.inl h)
          · exact Or.inr (Or.inr h)
      | true =>
          simp only [hca, if_true]
          have hwf1 : DockerWF (dockerCreate st.docker).1 := dockerWF_create _ hwf
          have href1 : SbxRef { st with docker := (dockerCreate st.docker).1, app_container := some ⟨some (dockerCreate st.docker).2⟩ } := by
            intro c hc
            simp only [dockerCreate, List.mem_append, List.mem_singleton] at hc
            rcases hc with hc | rfl
            · rcases href c hc with h | h | h
              · rw [ha] at h
                obtain ⟨h', hh', _⟩ := h
                simp at hh'
              · exact Or.inr (Or.inl h)
              · exact Or.inr (Or.inr h)
            · exact Or.inl ⟨_, rfl, rfl⟩
          cases hsa : env.start_app_ok with
          | false =>
              simp only [hsa, Bool.false_eq_true, if_false]
              exact ⟨hwf1, href1⟩
          | true =>
              simp only [hsa, if_true]
              refine pinger_part_spec env _ ?_ ?_ hp
              · exact dockerWF_setRunning _ _ _ hwf1
              · exact sbxRef_of_ids { st with docker := (dockerCreate st.docker).1, app_container := some ⟨some (dockerCreate st.docker).2⟩ } _ (setRunning_ids _ _ _) rfl rfl rfl href1

theorem create_and_run_spec (env : SbxEnv) (st : SbxState)
    (hwf : DockerWF st.docker) (href : SbxRef st)
    (hd : st.devappserver_container = none)
    (ha : st.app_container = none) (hp : st.pinger_container = none) :
    DockerWF (create_and_run_containers env st).1.docker ∧
      SbxRef (create_and_run_containers env st).1 := by
  unfold create_and_run_containers
  cases hrd : env.run_devappserver with
  | false =>
      simp only [hrd, Bool.false_eq_true, if_false]
      exact app_part_spec env st hwf href ha hp
  | true =>
      simp only [hrd, if_true]
      cases hb : env.build_das_image_ok with
      | false => simpa [hb] using ⟨hwf, href⟩
      | true =>
          simp only [hb, Bool.not_true, Bool.false_eq_true, if_false]
          cases hcd : env.create_das_ok with
          | false =>
              simp only [hcd, Bool.false_eq_true, if_false]
              refine ⟨hwf, ?_⟩
              intro c hc
              rcases href c hc with h | h | h
              · exact Or.inl h
              · rw [hd] at h
                obtain ⟨h', hh', _⟩ := h
                simp at hh'
              · exact Or.inr (Or.inr h)
          | true =>
              simp only [hcd, if_true]
              have hwf1 : DockerWF (dockerCreate st.docker).1 :=
                dockerWF_create _ hwf
              have href1 : SbxRef { st with docker := (dockerCreate st.docker).1, devappserver_container := some ⟨some (dockerCreate st.docker).2⟩ } := by
                intro c hc
                simp only [dockerCreate, List.mem_append, List.mem_singleton] at hc
                rcases hc with hc | rfl
                · rcases href c hc with h | h | h
                  · exact Or.inl h
                  · rw [hd] at h
                    obtain ⟨h', hh', _⟩ := h
                    simp at hh'
                  · exact Or.inr (Or.inr h)
                · exact Or.inr (Or.inl ⟨_, rfl, rfl⟩)
              cases hsd : env.start_das_ok with
              | false =>
                  simp only [hsd, Bool.false_eq_true, if_false]
                  exact ⟨hwf1, href1⟩
              | true =>
                  simp only [hsd, if_true]
                  refine app_part_spec env _ ?_ ?_ ha hp
                  · exact dockerWF_setRunning _ _ _ hwf1
                  · exact sbxRef_of_ids { st with docker := (dockerCreate st.docker).1, devappserver_container := some ⟨some (dockerCreate st.docker).2⟩ } _ (setRunning_ids _ _ _) rfl rfl rfl href1

/-- The environment of end-to-end scenario A: every container comes up,
but the pinger never reaches the application within the 30 default
attempts. -/
def timeoutEnv : SbxEnv :=
  { run_devappserver := true, build_das_image_ok := true, create_das_ok := true,
    start_das_ok := true, build_app_image_ok := true, create_app_ok := true,
    start_app_ok := true, create_pinger_ok := true, start_pinger_ok := true,
    ping_ok := fun _ => false, das_alive := fun _ => true, timeout := 30 }

/-- Claim C5: whenever `start()` fails — for any combination of docker
failures, devappserver death or probe timeout — `stop()` has run before
the error propagates and no container of this sandbox is still running;
in particular the never-successful probe produces the startup-timeout
abort with nothing left running. -/
theorem claim_c5_teardown_on_failure :
    (∀ (env : SbxEnv) (e : PyError),
        (sandbox_start env initSbx).2 = some e →
        ∀ c ∈ (sandbox_start env initSbx).1.docker.containers,
          c.running = false) ∧
      (sandbox_start timeoutEnv initSbx).2 =
        some (.appstartAbort "The application server timed out.") ∧
      (∀ c ∈ (sandbox_start timeoutEnv initSbx).1.docker.containers,
        c.running = false) := by
  have hgen : ∀ (env : SbxEnv) (e : PyError),
      (sandbox_start env initSbx).2 = some e →
      ∀ c ∈ (sandbox_start env initSbx).1.docker.containers,
        c.running = false := by
    intro env e herr
    obtain ⟨hwf, href⟩ := create_and_run_spec env initSbx dockerWF_empty
      (by intro c hc; simp [initSbx, emptyDocker] at hc) rfl rfl rfl
    unfold sandbox_start at herr ⊢
    cases hres : create_and_run_containers env initSbx with
    | mk st1 e? =>
        rw [hres] at herr hwf href
        cases e? with
        | none => simp at herr
        | some e1 =>
            simp only
            exact stop_clears st1 hwf href
  refine ⟨hgen, by decide, ?_⟩
  exact hgen timeoutEnv (.appstartAbort "The application server timed out.")
    (by decide)

/-- Witness for claim C5: the general teardown guarantee applied to the
startup-timeout scenario. -/
theorem claim_c5_teardown_witness :
    ∀ c ∈ (sandbox_start timeoutEnv initSbx).1.docker.containers,
      c.running = false :=
  claim_c5_teardown_on_failure.1 timeoutEnv
    (.appstartAbort "The application server timed out.") (by decide)

/-! ### Claim C8: signal-safe container creation
(`Container.create` and `sig_handler`, container.py lines 32-95) -/

/-- The state `Container.create` manipulates: the process-wide `_EXITING`
flag, the handle, and the daemon. -/
structure CreateWorld where
  exiting : Bool
  handle : ContainerHandle
  docker : DockerState
deriving DecidableEq, Repr

/-- `Container.create`: install the SIGINT handler (which only sets
`_EXITING`); run `docker.Client.create_container` — if a SIGINT arrives
while the call is in flight or before the flag check, the handler merely
sets the flag and the call still completes; store the returned id in
`self._container_id`; restore the previous handler; and only then, if
`_EXITING` is set, raise KeyboardInterrupt.  An APIError from the daemon
becomes AppstartAbort with no id stored and no container created. -/
def container_create (sigint : Bool) (api_ok : Bool) (w : CreateWorld) :
    CreateWorld × Option PyError :=
  if api_ok then
    let dk1 := (dockerCreate w.docker).1
    let i := (dockerCreate w.docker).2
    let exiting1 := w.exiting || sigint
    let w1 : CreateWorld :=
      { exiting := exiting1, handle := ⟨some i⟩, docker := dk1 }
    if exiting1 then (w1, some .keyboardInterrupt) else (w1, none)
  else ({ w with exiting := w.exiting || sigint },
        some (.appstartAbort "Could not create container"))

/-- The initial world: no pending signal, an unset handle, a fresh daemon. -/
def initCreateWorld : CreateWorld :=
  { exiting := false, handle := ⟨none⟩, docker := emptyDocker }

/-- Claim C8: if the creation call succeeds at the daemon, the handle
holds the new container's id whether or not a SIGINT arrived; whenever
`create` propagates KeyboardInterrupt the handle already holds the id
(so teardown can find and remove the container); and in the concrete
interrupted run the result is exactly the recorded id plus the
propagated KeyboardInterrupt. -/
theorem claim_c8_signal_safe_create :
    (∀ (w : CreateWorld) (sigint : Bool),
        (container_create sigint true w).1.handle.container_id =
          some w.docker.nextId) ∧
      (∀ (w : CreateWorld) (sigint api_ok : Bool),
        (container_create sigint api_ok w).2 = some PyError.keyboardInterrupt →
        (container_create sigint api_ok w).1.handle.container_id =
          some w.docker.nextId) ∧
      container_create true true initCreateWorld =
        ({ exiting := true, handle := ⟨some 0⟩,
           docker := { containers := [{ id := 0, running := false }],
                       nextId := 1 } },
         some PyError.keyboardInterrupt) := by
  refine ⟨?_, ?_, by decide⟩
  · intro w sigint
    unfold container_create
    by_cases h : w.exiting || sigint <;> simp [h, dockerCreate]
  · intro w sigint api_ok herr
    cases api_ok with
    | true =>
        unfold container_create at herr ⊢
        by_cases h : w.exiting || sigint <;> simp [h, dockerCreate] at herr ⊢
    | false =>
        unfold container_create at herr
        simp at herr

/-- Witness for claim C8: the interrupt-propagation part applied to the
concrete interrupted run. -/
theorem claim_c8_signal_safe_create_witness :
    (container_create true true initCreateWorld).1.handle.container_id =
      some 0 :=
  claim_c8_signal_safe_create.2.1 initCreateWorld true true (by decide)

/-! ### Claim C9: idempotent remove and kill -/

/-- Claim C9: a successful `remove()` clears the stored id and leaves no
container with that id; once the id is cleared, `remove()` and `kill()`
are no-ops that cannot raise, so calling `remove()` twice never raises. -/
theorem claim_c9_remove_kill_idempotent :
    (∀ (h : ContainerHandle) (dk : DockerState) (h1 : ContainerHandle)
        (dk1 : DockerState),
      containerRemoveE h dk = .ok (h1, dk1) →
        h1.container_id = none ∧
          containerRemoveE h1 dk1 = .ok (h1, dk1) ∧
          containerKillE h1 dk1 = .ok (h1, dk1)) ∧
      (∀ (h : ContainerHandle) (dk : DockerState), h.container_id = none →
        containerRemoveE h dk = .ok (h, dk) ∧
          containerKillE h dk = .ok (h, dk)) ∧
      (∀ (h : ContainerHandle) (dk : DockerState) (i : Nat)
          (c : DockerContainer),
        h.container_id = some i →
        dk.containers.find? (fun c => c.id = i) = some c →
        c.running = false →
        containerRemoveE h dk = .ok (⟨none⟩, dockerRemove dk i) ∧
          ∀ c' ∈ (dockerRemove dk i).containers, c'.id ≠ i) := by
  refine ⟨?_, ?_, ?_⟩
  · intro h dk h1 dk1 hok
    unfold containerRemoveE at hok
    cases hid : h.container_id with
    | none =>
        simp only [hid, Except.ok.injEq, Prod.mk.injEq] at hok
        obtain ⟨rfl, rfl⟩ := hok
        refine ⟨hid, ?_, ?_⟩ <;> simp [containerRemoveE, containerKillE, hid]
    | some i =>
        simp only [hid] at hok
        cases hf : dk.containers.find? (fun c => c.id = i) with
        | none => simp [hf] at hok
        | some c =>
            simp only [hf] at hok
            by_cases hr : c.running
            · simp [hr] at hok
            · simp only [hr, Bool.false_eq_true, if_false, Except.ok.injEq,
                Prod.mk.injEq] at hok
              obtain ⟨rfl, rfl⟩ := hok
              refine ⟨rfl, ?_, ?_⟩ <;>
                simp [containerRemoveE, containerKillE]
  · intro h dk hid
    constructor <;> simp [containerRemoveE, containerKillE, hid]
  · intro h dk i c hid hf hr
    constructor
    · simp [containerRemoveE, hid, hf, hr]
    · intro c' hc'
      simp only [dockerRemove, List.mem_filter] at hc'
      simpa using hc'.2

/-- Witness for claim C9: remove twice on a concrete one-container
daemon. -/
theorem claim_c9_remove_kill_witness :
    containerRemoveE (⟨none⟩ : ContainerHandle)
        { containers := [], nextId := 1 } =
      .ok (⟨none⟩, { containers := [], nextId := 1 }) := by
  have h := claim_c9_remove_kill_idempotent.1
    (⟨some 0⟩ : ContainerHandle)
    { containers := [{ id := 0, running := false }], nextId := 1 }
    (⟨none⟩ : ContainerHandle) { containers := [], nextId := 1 }
    (by rfl)
  exact h.2.1

/-! ### Claim C10: automatic tagging with the class name -/

/-- The tag step of the ContractClause metaclass (contract.py line 580):
when a clause class is defined, `cls.tags.add(name)` runs with `name`
being the class name AT DEFINITION TIME. -/
def defineClauseClass (creationName : String) (declaredTags : List String)
    (point level : Nat) : Clause :=
  { name := creationName, lifecycle_point := point, error_level := level,
    tags := addIfAbsent creationName declaredTags,
    dependencies := [], dependents := [], before := [], after := [] }

/-- `_make_hook_clause_for_yaml` (contract.py lines 930-982): the hook
class is defined under the python class name `NewClause`, so the
metaclass tags it with "NewClause"; only afterwards is `__name__`
reassigned to the descriptor's `name` field. -/
def makeHookClause (hookName : String) (declaredTags : List String)
    (point level : Nat) : Clause :=
  { defineClauseClass "NewClause" declaredTags point level with
    name := hookName }

/-- Claim C10, counterexample: a hook clause whose descriptor names it
`my_hook` and declares no tags is registered under the name `my_hook`,
but its tag set is exactly `NewClause` — it does not contain its own
name, and a tag filter naming the clause skips it instead of selecting
it. -/
theorem claim_c10_counterexample :
    (makeHookClause "my_hook" [] POST_START UNUSED).name = "my_hook" ∧
      (makeHookClause "my_hook" [] POST_START UNUSED).tags = ["NewClause"] ∧
      "my_hook" ∉ (makeHookClause "my_hook" [] POST_START UNUSED).tags ∧
      outcomeOf ["my_hook"] []
        { name := "my_hook", error_level := UNUSED,
          tags := (makeHookClause "my_hook" [] POST_START UNUSED).tags,
          dependencies := [], raw := RawOutcome.pass } = Outcome.skip := by
  refine ⟨rfl, by decide, by decide, by decide⟩

/-- Claim C10, amended: every clause's tag set contains the class name it
was DEFINED under, hence is never empty; for statically defined clauses
the registered name equals the definition name, so a tag filter
containing the clause's name always selects it (the wrapper runs the
body); hook clauses instead carry the auto-added tag "NewClause", not
the descriptor name they are registered under. -/
theorem claim_c10_amended :
    (∀ (creationName : String) (declaredTags : List String) (point level : Nat),
        creationName ∈ (defineClauseClass creationName declaredTags
            point level).tags ∧
          (defineClauseClass creationName declaredTags point level).tags ≠ []) ∧
      (∀ (creationName : String) (declaredTags : List String)
          (point level : Nat) (tags_filter sset : List String)
          (raw : RawOutcome),
        creationName ∈ tags_filter →
        outcomeOf tags_filter sset
            { name := creationName, error_level := level,
              tags := (defineClauseClass creationName declaredTags
                point level).tags,
              dependencies := [], raw := raw } ≠ Outcome.skip) ∧
      (∀ (hookName : String) (declaredTags : List String) (point level : Nat),
        "NewClause" ∈ (makeHookClause hookName declaredTags point level).tags ∧
          (makeHookClause hookName declaredTags point level).name = hookName) := by
  refine ⟨?_, ?_, ?_⟩
  · intro creationName declaredTags point level
    constructor
    · exact mem_addIfAbsent_self _ _
    · intro hemp
      have := mem_addIfAbsent_self creationName declaredTags
      rw [show (defineClauseClass creationName declaredTags point level).tags =
        addIfAbsent creationName declaredTags from rfl] at hemp
      rw [hemp] at this
      simp at this
  · intro creationName declaredTags point level tags_filter sset raw hmem
    have hall : ((defineClauseClass creationName declaredTags point level).tags.all
        (fun t => decide (t ∉ tags_filter))) = false := by
      cases hb : ((defineClauseClass creationName declaredTags point level).tags.all
          (fun t => decide (t ∉ tags_filter))) with
      | false => rfl
      | true =>
          have := List.all_eq_true.mp hb creationName
            (mem_addIfAbsent_self creationName declaredTags)
          simp [hmem] at this
    unfold outcomeOf
    simp only [List.any_nil, Bool.false_eq_true, if_false, hall, and_false]
    cases raw <;> simp
  · intro hookName declaredTags point level
    exact ⟨mem_addIfAbsent_self _ _, rfl⟩

/-- Witness for claim C10: the static-clause selection applied to a
concrete clause and filter. -/
theorem claim_c10_amended_witness :
    outcomeOf ["StaticClause"] []
        { name := "StaticClause", error_level := UNUSED,
          tags := (defineClauseClass "StaticClause" [] POST_START UNUSED).tags,
          dependencies := [], raw := RawOutcome.pass } ≠ Outcome.skip :=
  claim_c10_amended.2.1 "StaticClause" [] POST_START UNUSED ["StaticClause"] []
    RawOutcome.pass (by decide)

end Appstart
